import Mathlib

/-!
Verification of the `ssh_config` resolver library (Go) against its
natural-language specification.  The definitions below are a shallow
embedding of the library's source: pure Go functions become Lean
functions, the per-pass mutable state becomes an explicitly threaded
`resolveState`, Go maps become association lists, and fallible Go
functions return `Except`.  Definitions are translated from the source
files; the few places where source is unavailable (the lexer/parser and
the include loader's recursion skeleton) are modelled from the
specification and are marked as such in their doc comments.
-/

set_option maxRecDepth 4096

namespace SshConfig

/-! ### String helpers

Go's `strings` package functions used by the library, implemented over
the character list of a `String` so that all definitions reduce in the
kernel.  `strings.ToLower` is modelled on ASCII (all keywords and
directive names handled by the library are ASCII). -/

def asciiLowerChar (c : Char) : Char :=
  if 'A' ≤ c ∧ c ≤ 'Z' then Char.ofNat (c.toNat + 32) else c

/-- Models `strings.ToLower` (ASCII range). -/
def lowerStr (s : String) : String := ⟨s.data.map asciiLowerChar⟩

def isSpaceChar (c : Char) : Bool := c = ' ' ∨ c = '\t' ∨ c = '\n' ∨ c = '\r'

def dropWhileL (p : Char → Bool) : List Char → List Char
  | [] => []
  | c :: rest => if p c then dropWhileL p rest else c :: rest

/-- Models `strings.TrimSpace`. -/
def trimStr (s : String) : String :=
  ⟨(dropWhileL isSpaceChar ((dropWhileL isSpaceChar s.data.reverse).reverse))⟩

/-- Models `strings.HasPrefix(s, "!")`. -/
def startsBang (s : String) : Bool :=
  match s.data with
  | [] => false
  | c :: _ => c = '!'

/-- Models `strings.TrimPrefix(s, "!")` (drops one leading `!`). -/
def dropBang (s : String) : String :=
  match s.data with
  | '!' :: rest => ⟨rest⟩
  | l => ⟨l⟩

/-- `n` space characters, for rendering leading whitespace. -/
def spacesN (n : Nat) : String := ⟨List.replicate n ' '⟩

/-- Joins strings with a separator; models `strings.Join`. -/
def joinSep (sep : String) : List String → String
  | [] => ""
  | [x] => x
  | x :: rest => x ++ sep ++ joinSep sep rest

def splitCharsAux (p : Char → Bool) : List Char → List Char → List (List Char)
  | [], acc => [acc]
  | c :: rest, acc =>
    if p c then acc :: splitCharsAux p rest [] else splitCharsAux p rest (acc ++ [c])

/-- Splits a string at every separator character (keeping empty
fragments, like `String.split`). -/
def splitStr (p : Char → Bool) (s : String) : List String :=
  (splitCharsAux p s.data []).map (fun l => ⟨l⟩)

/-! ### Pattern matcher

Embeds `NewPattern` / `Pattern` from the source.  The Go code compiles a
pattern to an anchored regular expression mapping `*` to `.*`, `?` to
`.?` and escaping every other byte; `tokMatch` is the matcher for that
anchored expression (`regex.MatchString`), with `.?` matching zero or
one character. -/

inductive PatTok where
  | lit (c : Char)
  | star
  | opt
deriving DecidableEq, Repr

/-- Token translation performed in `NewPattern`'s compile loop. -/
def compilePat (s : String) : List PatTok :=
  s.data.map (fun c => if c = '*' then .star else if c = '?' then .opt else .lit c)

/-- Anchored matcher for the compiled pattern, with explicit fuel: each
step shrinks the token list or the input, so `ts.length + s.length + 1`
fuel always suffices and the out-of-fuel branch is unreachable from
`tokMatch`. -/
def tokMatchF : Nat → List PatTok → List Char → Bool
  | 0, _, _ => false
  | fuel + 1, ts, s =>
    match ts, s with
    | [], [] => true
    | [], _ :: _ => false
    | .lit _ :: _, [] => false
    | .lit c :: ts, x :: xs => c = x && tokMatchF fuel ts xs
    | .star :: ts, s =>
      tokMatchF fuel ts s ||
        (match s with
         | [] => false
         | _ :: xs => tokMatchF fuel (.star :: ts) xs)
    | .opt :: ts, s =>
      tokMatchF fuel ts s ||
        (match s with
         | [] => false
         | _ :: xs => tokMatchF fuel ts xs)

/-- Models `regex.MatchString` on the regex built by `NewPattern`. -/
def tokMatch (ts : List PatTok) (s : List Char) : Bool :=
  tokMatchF (ts.length + s.length + 1) ts s

structure Pattern where
  /-- `str`: the text stored by `NewPattern` (after the negation strip). -/
  str : String
  toks : List PatTok
  not : Bool
deriving DecidableEq, Repr

inductive Err where
  | emptyPattern
  | unknownDirective (key : String)
  | unsupportedDirective (key : String)
  | deprecatedDirective (key : String)
  | invalidYesNo (name : String)
  | invalidUint (name : String)
  | invalidEnum (value name : String)
  | emptyList (name : String)
  | matchRequiresCriteria
  | unterminatedQuote
  | missingArgument (name : String)
  | matchAllCombined
  | unsupportedMatchAttribute (name : String)
  | callbackMissing (name : String)
  | callbackFailed (msg : String)
  | depthExceeded
deriving DecidableEq, Repr

/-- Embeds `NewPattern`: empty input is an error; a leading `!` sets the
negation flag and is dropped before the pattern text is stored. -/
def NewPattern (s : String) : Except Err Pattern :=
  if s = "" then .error .emptyPattern
  else
    let negated := startsBang s
    let s1 := if negated then dropBang s else s
    .ok { str := s1, toks := compilePat s1, not := negated }

/-- `Pattern.String()` returns the stored `str` field. -/
def patternString (p : Pattern) : String := p.str

/-- Embeds `matchPattern`.  In Go compilation can only fail on the empty
pattern, which is checked first, so the model is total. -/
def matchPattern (value pattern : String) : Bool :=
  if pattern = "" then false
  else
    match NewPattern pattern with
    | .error _ => false
    | .ok p => tokMatch p.toks value.data

/-- Embeds `splitPatternList`: `strings.FieldsFunc` on `,`, space, tab
(which never yields empty fields). -/
def splitPatternList (patterns : String) : List String :=
  (splitStr (fun r => r = ',' ∨ r = ' ' ∨ r = '\t') patterns).filter (fun s => s ≠ "")

/-- Scan loop of `matchPatternList` with the `matched` accumulator. -/
def matchPatternListAux (valueToMatch : String) (caseInsensitive : Bool) :
    List String → Bool → Bool
  | [], matched => matched
  | part :: rest, matched =>
    if part = "" then matchPatternListAux valueToMatch caseInsensitive rest matched
    else
      let negate := startsBang part
      let part1 := if negate then dropBang part else part
      let pattern := if caseInsensitive then lowerStr part1 else part1
      if matchPattern valueToMatch pattern then
        if negate then false
        else matchPatternListAux valueToMatch caseInsensitive rest true
      else matchPatternListAux valueToMatch caseInsensitive rest matched

/-- Embeds `matchPatternList`. -/
def matchPatternList (value patternList : String) (caseInsensitive : Bool) : Bool :=
  matchPatternListAux (if caseInsensitive then lowerStr value else value)
    caseInsensitive (splitPatternList patternList) false

/-- One fragment of a pattern list, with negation stripped, prepared the
way `matchPatternList` prepares it before calling `matchPattern`. -/
def partMatches (valueToMatch : String) (caseInsensitive : Bool) (part : String) : Bool :=
  let part1 := if startsBang part then dropBang part else part
  matchPattern valueToMatch (if caseInsensitive then lowerStr part1 else part1)

/-- Declarative negation semantics: some negated fragment matches. -/
def listNegHit (valueToMatch : String) (ci : Bool) (parts : List String) : Bool :=
  parts.any (fun p => p ≠ "" && startsBang p && partMatches valueToMatch ci p)

/-- Declarative positive semantics: some positive fragment matches. -/
def listPosHit (valueToMatch : String) (ci : Bool) (parts : List String) : Bool :=
  parts.any (fun p => p ≠ "" && !startsBang p && partMatches valueToMatch ci p)

/-- Scan loop of `Host.Matches` with the `found` accumulator. -/
def hostMatchesAux (hostAlias : String) : List Pattern → Bool → Bool
  | [], found => found
  | p :: rest, found =>
    if tokMatch p.toks hostAlias.data then
      if p.not then false
      else hostMatchesAux hostAlias rest true
    else hostMatchesAux hostAlias rest found

/-- Embeds `Host.Matches` (the pattern scan over `h.Patterns`). -/
def hostMatches (patterns : List Pattern) (hostAlias : String) : Bool :=
  hostMatchesAux hostAlias patterns false

/-! ### Client spec

Embeds `specDirective` / `clientSpec` from the source.  The embedded
JSON document itself is external data (it is not under the source tree),
so every resolver function is parametrised by the spec table, exactly as
the Go functions are parametrised by the decoded `*clientSpec`.  The
`default` field of the JSON (a string or list of strings) is modelled
directly as a list; `defaultValues` keeps the Go behaviour of dropping
empty strings. -/

structure specDirective where
  name : String
  canonical : String
  status : String
  type : String
  multi : Bool
  default : List String
  aliasFor : String
  enum : List String
deriving DecidableEq, Repr

structure clientSpec where
  openSSHVersion : String
  directives : List specDirective
deriving DecidableEq, Repr

/-- The `byName` index: Go builds a map keyed by lowercased name in
declaration order, so a later entry with the same name wins. -/
def byName (spec : clientSpec) (name : String) : Option specDirective :=
  spec.directives.reverse.find? (fun d => lowerStr d.name = name)

/-- Embeds `specDirective.defaultValues`: empty strings are dropped. -/
def defaultValues (d : specDirective) : List String :=
  d.default.filter (fun s => s ≠ "")

/-- The alias-following loop of `supportedDirective`, with the visited
set made explicit.  The fuel argument is ghost: every step inserts a new
lowercased spec name into `visited`, so `spec.directives.length + 1`
steps always suffice and the fuel never runs out on the arguments
`supportedDirective` passes. -/
def aliasChase (spec : clientSpec) : Nat → List String → specDirective → Option specDirective
  | 0, _, _ => none
  | fuel + 1, visited, d =>
    if d.aliasFor = "" then some d
    else
      let nextName := lowerStr d.aliasFor
      if visited.contains nextName then none
      else
        match byName spec nextName with
        | none => none
        | some next =>
          if next.status = "supported" then aliasChase spec fuel (nextName :: visited) next
          else none

/-- Embeds `supportedDirective`: lowercase and look up; a keyword whose
own entry does not have status `supported` yields `none` immediately;
otherwise `aliasFor` hops are followed while every hop stays supported,
with cycle detection through the visited set. -/
def supportedDirective (spec : clientSpec) (keyword : String) : Option specDirective :=
  if keyword = "" then none
  else
    let name := lowerStr keyword
    match byName spec name with
    | none => none
    | some d =>
      if d.status = "supported" then aliasChase spec (spec.directives.length + 1) [name] d
      else none

/-- Embeds `Default`. -/
def Default (spec : clientSpec) (keyword : String) : String :=
  match supportedDirective spec keyword with
  | none => ""
  | some d =>
    match defaultValues d with
    | [] => ""
    | v :: _ => v

/-- Embeds `SupportsMultiple`. -/
def SupportsMultiple (spec : clientSpec) (key : String) : Bool :=
  match supportedDirective spec key with
  | none => false
  | some d => d.multi

/-! ### Resolve state, options, context

The per-pass `resolveState.values` map (Go `map[string][]string`) is
modelled as an association list; `lookupV`/`setV` are map read/write. -/

def lookupV : List (String × List String) → String → Option (List String)
  | [], _ => none
  | (k0, v0) :: rest, k => if k0 = k then some v0 else lookupV rest k

def setV : List (String × List String) → String → List String → List (String × List String)
  | [], k, v => [(k, v)]
  | (k0, v0) :: rest, k, v =>
    if k0 = k then (k0, v) :: rest else (k0, v0) :: setV rest k v

structure resolveState where
  values : List (String × List String)
  ignoreUnknown : String
deriving DecidableEq, Repr

structure resolveOptions where
  strict : Bool
  finalPass : Bool
deriving DecidableEq, Repr

inductive passType where
  | passInitial
  | passCanonical
  | passFinal
deriving DecidableEq, Repr

/-- Embeds `Context`.  The two predicate callbacks are caller-supplied
Go functions returning `(bool, error)`; they are modelled as pure
functions into `Except String Bool`. -/
structure Context where
  hostArg : String
  originalHost : String
  localUser : String
  version : String
  sessionType : String
  command : String
  exec : Option (String → Except String Bool)
  localNetwork : Option (String → Except String Bool)

/-- Ambient process inputs read by `expandMatchExec` (`os.Hostname`,
`os.UserHomeDir`, `osuser.Current`, and the SHA-1 routine used by
`connectionHash`), made explicit parameters of the embedding. -/
structure Env where
  localHost : String
  homeDir : String
  uid : String
  sha1Hex : String → String

/-- Embeds `matchesIgnoreUnknown`. -/
def matchesIgnoreUnknown (patterns key : String) : Bool :=
  if patterns = "" then false
  else matchPatternList key patterns true

/-- Embeds `validateValue`: the per-type checks for `yesno`, `uint`,
`enum` and `list`; other types are accepted. `none` means valid. -/
def validateValue (d : specDirective) (value : String) : Option Err :=
  let val := trimStr value
  if d.type = "yesno" then
    let lower := lowerStr val
    if lower ≠ "yes" ∧ lower ≠ "no" then some (.invalidYesNo d.name) else none
  else if d.type = "uint" then
    if val = "" then some (.invalidUint d.name)
    else if val.data.all (fun r => '0' ≤ r ∧ r ≤ '9') then none
    else some (.invalidUint d.name)
  else if d.type = "enum" then
    if d.enum = [] then none
    else if d.enum.any (fun entry => lowerStr entry = lowerStr val) then none
    else some (.invalidEnum value d.name)
  else if d.type = "list" then
    if val = "" then some (.emptyList d.name) else none
  else none

/-- Embeds `applyDirective`.  (The Go function also receives `ctx` and
`pass`, which it does not read; they are omitted here.)  Strict
validation runs before the `active` gate; the assignment policy is
first-wins for `ignoreunknown` and for single-valued directives, append
for `multi` directives. -/
def applyDirective (key value : String) (active : Bool) (options : resolveOptions)
    (spec : clientSpec) (state : resolveState) : Except Err resolveState :=
  let lkey := lowerStr (trimStr key)
  match byName spec lkey with
  | none =>
    if options.strict then
      if matchesIgnoreUnknown state.ignoreUnknown lkey then .ok state
      else .error (.unknownDirective key)
    else .ok state
  | some directive =>
    if directive.status = "unsupported" then
      if options.strict then .error (.unsupportedDirective key) else .ok state
    else if directive.status = "deprecated" ∧ directive.aliasFor = "" ∧ options.strict then
      .error (.deprecatedDirective key)
    else
      match (if options.strict then validateValue directive value else none) with
      | some e => .error e
      | none =>
        if !active then .ok state
        else
          let canonical0 := if directive.aliasFor ≠ "" then directive.aliasFor
                            else directive.canonical
          let canonical := lowerStr canonical0
          if canonical = "ignoreunknown" then
            match lookupV state.values canonical with
            | some _ => .ok state
            | none =>
              .ok { values := setV state.values canonical [value], ignoreUnknown := value }
          else if directive.multi then
            .ok { state with
                  values := setV state.values canonical
                    ((lookupV state.values canonical).getD [] ++ [value]) }
          else
            match lookupV state.values canonical with
            | some _ => .ok state
            | none => .ok { state with values := setV state.values canonical [value] }

/-! ### Match criteria -/

structure matchCriterion where
  name : String
  value : String
  negate : Bool
deriving DecidableEq, Repr

def flushField (fields : List String) (field : List Char) : List String :=
  if field = [] then fields else fields ++ [⟨field⟩]

/-- Character loop of `tokenizeMatchCriteria`: quotes group, backslash
escapes space, tab, quote and backslash (other escapes keep the
backslash), unterminated quotes are an error, a trailing backslash is
kept literally. -/
def tokenizeAux : List Char → List String → List Char → Bool → Bool → Except Err (List String)
  | [], fields, field, inQuotes, escaped =>
    let field := if escaped then field ++ ['\\'] else field
    if inQuotes then .error .unterminatedQuote
    else .ok (flushField fields field)
  | r :: rest, fields, field, inQuotes, escaped =>
    if escaped then
      if r = ' ' ∨ r = '\t' ∨ r = '"' ∨ r = '\\' then
        tokenizeAux rest fields (field ++ [r]) inQuotes false
      else tokenizeAux rest fields (field ++ ['\\', r]) inQuotes false
    else if r = '\\' then tokenizeAux rest fields field inQuotes true
    else if r = '"' then tokenizeAux rest fields field (!inQuotes) false
    else if r = ' ' ∨ r = '\t' then
      if inQuotes then tokenizeAux rest fields (field ++ [r]) inQuotes false
      else tokenizeAux rest (flushField fields field) [] inQuotes false
    else tokenizeAux rest fields (field ++ [r]) inQuotes false

/-- Embeds `tokenizeMatchCriteria`. -/
def tokenizeMatchCriteria (raw : String) : Except Err (List String) :=
  tokenizeAux raw.data [] [] false false

/-- `strings.SplitN(s, "=", 2)`: text before the first `=` and the rest. -/
def splitEqAux : List Char → List Char → String × String
  | acc, [] => (⟨acc⟩, "")
  | acc, c :: rest => if c = '=' then (⟨acc⟩, ⟨rest⟩) else splitEqAux (acc ++ [c]) rest

def containsEq (s : String) : Bool := s.data.any (fun c => c = '=')

/-- Token-grouping loop of `parseMatchCriteria`: bare keywords `all`,
`canonical`, `final`; `name=value` tokens; otherwise the next token is
consumed as the argument (missing argument is an error). -/
def groupCriteria : List String → Except Err (List matchCriterion)
  | [] => .ok []
  | field :: rest =>
    let negate := startsBang field
    let field1 := if negate then dropBang field else field
    let name := lowerStr field1
    if name = "all" ∨ name = "canonical" ∨ name = "final" then
      match groupCriteria rest with
      | .error e => .error e
      | .ok cs => .ok ({ name := name, value := "", negate := negate } :: cs)
    else if containsEq field1 then
      let parts := splitEqAux [] field1.data
      match groupCriteria rest with
      | .error e => .error e
      | .ok cs => .ok ({ name := lowerStr parts.1, value := parts.2, negate := negate } :: cs)
    else
      match rest with
      | [] => .error (.missingArgument name)
      | arg :: rest2 =>
        match groupCriteria rest2 with
        | .error e => .error e
        | .ok cs => .ok ({ name := name, value := arg, negate := negate } :: cs)

/-- Embeds `parseMatchCriteria`. -/
def parseMatchCriteria (raw : String) : Except Err (List matchCriterion) :=
  match tokenizeMatchCriteria raw with
  | .error e => .error e
  | .ok [] => .error .matchRequiresCriteria
  | .ok fields => groupCriteria fields

/-- Index loop of `validateMatchAll` over the full criteria list. -/
def validateMatchAllAux (all0 : List matchCriterion) : Nat → List matchCriterion → Option Err
  | _, [] => none
  | i, c :: rest =>
    if c.name ≠ "all" then validateMatchAllAux all0 (i + 1) rest
    else if all0.length = 1 then none
    else if all0.length = 2 ∧ i = 1 ∧
        ((all0.headD c).name = "canonical" ∨ (all0.headD c).name = "final") then none
    else some .matchAllCombined

/-- Embeds `validateMatchAll`: `all` may appear alone, or second of two
after `canonical` or `final`; any other combination is an error. -/
def validateMatchAll (criteria : List matchCriterion) : Option Err :=
  validateMatchAllAux criteria 0 criteria

/-- Embeds `applyNegation`. -/
def applyNegation (value negate : Bool) : Bool :=
  if negate then !value else value

/-- Embeds `firstValue`. -/
def firstValue (values : List (String × List String)) (key : String) : String :=
  match lookupV values (lowerStr key) with
  | none => ""
  | some [] => ""
  | some (v :: _) => v

/-- Byte loop of `expandHostName` handling `%%` and `%h`. -/
def expandHostNameAux (hostArg : String) : List Char → List Char
  | [] => []
  | ['%'] => ['%']
  | '%' :: c :: rest =>
    if c = '%' then '%' :: expandHostNameAux hostArg rest
    else if c = 'h' then hostArg.data ++ expandHostNameAux hostArg rest
    else '%' :: c :: expandHostNameAux hostArg rest
  | c :: rest => c :: expandHostNameAux hostArg rest

/-- Embeds `expandHostName`. -/
def expandHostName (value hostArg : String) : String :=
  ⟨expandHostNameAux hostArg value.data⟩

/-- Embeds `effectiveHost`. -/
def effectiveHost (ctx : Context) (state : resolveState) : String :=
  let hn := firstValue state.values "hostname"
  if hn ≠ "" then expandHostName hn ctx.hostArg else ctx.hostArg

/-- Embeds `remoteUser`. -/
def remoteUser (ctx : Context) (state : resolveState) : String :=
  let user := firstValue state.values "user"
  if user ≠ "" then user else ctx.localUser

/-- Embeds `sessionType`. -/
def sessionTypeOf (ctx : Context) (state : resolveState) : String :=
  let st := firstValue state.values "sessiontype"
  if st ≠ "" then st
  else if ctx.command ≠ "" then "exec"
  else ctx.sessionType

/-- Embeds `resolvePort`. -/
def resolvePort (state : resolveState) (spec : clientSpec) : String :=
  let port := firstValue state.values "port"
  if port ≠ "" then port
  else
    match byName spec "port" with
    | some d =>
      (match defaultValues d with
       | v :: _ => v
       | [] => "22")
    | none => "22"

/-- Byte loop of `expandTokens`: a two-character `%X` token found in the
table is replaced, unknown tokens and a trailing `%` pass through. -/
def expandTokensAux (table : List (String × String)) : List Char → List Char
  | [] => []
  | ['%'] => ['%']
  | '%' :: c :: rest =>
    (match table.find? (fun p => p.1 = (⟨['%', c]⟩ : String)) with
     | some p => p.2.data ++ expandTokensAux table rest
     | none => '%' :: c :: expandTokensAux table rest)
  | c :: rest => c :: expandTokensAux table rest

/-- Embeds `expandTokens`. -/
def expandTokens (value : String) (table : List (String × String)) : String :=
  ⟨expandTokensAux table value.data⟩

/-- Embeds `connectionHash`: SHA-1 hex of the concatenated inputs,
via the environment's hash function. -/
def connectionHash (env : Env) (localHost host port user jump : String) : String :=
  env.sha1Hex (localHost ++ host ++ port ++ user ++ jump)

/-- `shortHost` computation in `expandMatchExec`: local host up to the
first `.` when that dot is not the first character. -/
def shortHostOf (s : String) : String :=
  let pre := s.data.takeWhile (fun c => c ≠ '.')
  if pre ≠ [] ∧ pre.length ≠ s.data.length then ⟨pre⟩ else s

/-- Embeds `expandMatchExec` (which never returns an error in the
source: its final statement returns a nil error). -/
def expandMatchExec (value : String) (ctx : Context) (state : resolveState)
    (spec : clientSpec) (env : Env) : String :=
  let localHost := env.localHost
  let shortHost := shortHostOf localHost
  let port := resolvePort state spec
  let remote := remoteUser ctx state
  let jump0 := firstValue state.values "proxyjump"
  let jump := if lowerStr jump0 = "none" then "" else jump0
  let host := effectiveHost ctx state
  let keyAlias0 := firstValue state.values "hostkeyalias"
  let keyAlias := if keyAlias0 = "" then host else keyAlias0
  let connHash := connectionHash env localHost host port remote jump
  let table : List (String × String) :=
    [("%%", "%"), ("%C", connHash), ("%L", shortHost), ("%d", env.homeDir),
     ("%h", host), ("%k", keyAlias), ("%l", localHost), ("%n", ctx.originalHost),
     ("%p", port), ("%r", remote), ("%u", ctx.localUser), ("%i", env.uid),
     ("%j", jump)]
  expandTokens value table

/-- Embeds `evalCriterion`: the per-attribute switch.  Pattern-list
matching is total in the model (see `matchPattern`), so the error
returns threaded through `matchPatternList` in Go are always nil. -/
def evalCriterion (c : matchCriterion) (ctx : Context) (pass : passType)
    (options : resolveOptions) (spec : clientSpec) (state : resolveState)
    (env : Env) : Except Err Bool :=
  let negate := c.negate
  if c.name = "all" then .ok (applyNegation true negate)
  else if c.name = "canonical" then .ok (applyNegation (pass = .passCanonical) negate)
  else if c.name = "final" then .ok (applyNegation (pass = .passFinal) negate)
  else if c.name = "host" then
    .ok (applyNegation (matchPatternList (effectiveHost ctx state) c.value true) negate)
  else if c.name = "originalhost" then
    .ok (applyNegation (matchPatternList ctx.originalHost c.value true) negate)
  else if c.name = "user" then
    .ok (applyNegation (matchPatternList (remoteUser ctx state) c.value false) negate)
  else if c.name = "localuser" then
    .ok (applyNegation (matchPatternList ctx.localUser c.value false) negate)
  else if c.name = "localnetwork" then
    match ctx.localNetwork with
    | none =>
      if options.strict then .error (.callbackMissing "localnetwork") else .ok false
    | some f =>
      match f c.value with
      | .error e => if options.strict then .error (.callbackFailed e) else .ok false
      | .ok ok => .ok (applyNegation ok negate)
  else if c.name = "version" then
    .ok (applyNegation (matchPatternList ctx.version c.value false) negate)
  else if c.name = "tagged" then
    let tag := firstValue state.values "tag"
    if tag = "" ∧ c.value = "" then .ok (applyNegation true negate)
    else .ok (applyNegation (matchPatternList tag c.value false) negate)
  else if c.name = "command" then
    if ctx.command = "" ∧ c.value = "" then .ok (applyNegation true negate)
    else .ok (applyNegation (matchPatternList ctx.command c.value false) negate)
  else if c.name = "sessiontype" then
    .ok (applyNegation (matchPatternList (sessionTypeOf ctx state) c.value false) negate)
  else if c.name = "exec" then
    match ctx.exec with
    | none =>
      if options.strict then .error (.callbackMissing "exec") else .ok false
    | some f =>
      let cmd := expandMatchExec c.value ctx state spec env
      match f cmd with
      | .error e => if options.strict then .error (.callbackFailed e) else .ok false
      | .ok ok => .ok (applyNegation ok negate)
  else if options.strict then .error (.unsupportedMatchAttribute c.name)
  else .ok false

/-- Conjunction loop of `evalMatch` with the `result` accumulator;
`exec` criteria are skipped once the result is already false. -/
def evalMatchAux (ctx : Context) (pass : passType) (options : resolveOptions)
    (spec : clientSpec) (state : resolveState) (env : Env) :
    List matchCriterion → Bool → Except Err Bool
  | [], result => .ok result
  | c :: rest, result =>
    if result = false ∧ c.name = "exec" then
      evalMatchAux ctx pass options spec state env rest result
    else
      match evalCriterion c ctx pass options spec state env with
      | .error e => .error e
      | .ok matched =>
        evalMatchAux ctx pass options spec state env rest (if matched then result else false)

/-- Embeds `evalMatch`: empty criteria are an error, the `Match all`
combination rule is checked first, then criteria are conjoined. -/
def evalMatch (criteria : List matchCriterion) (ctx : Context) (pass : passType)
    (options : resolveOptions) (spec : clientSpec) (state : resolveState)
    (env : Env) : Except Err Bool :=
  if criteria = [] then .error .matchRequiresCriteria
  else
    match validateMatchAll criteria with
    | some e => .error e
    | none => evalMatchAux ctx pass options spec state env criteria true

/-! ### Document model

`Config` / `Host` / `Match` / `KV` / `Empty` / `Include` from the
source.  Go's `Include` keeps an ordered list of matched paths and a map
from path to parsed sub-document; since the resolver only iterates the
parsed sub-documents in order (skipping nil entries), the node stores
that ordered list directly.  `Config.Hosts` in Go holds host blocks
which `effectiveBlocks` converts to blocks; it is modelled as a block
list as well.  The lists appearing in the cycle
config → block → node → config are hand-rolled so that all recursion
below is structural. -/

structure KVData where
  key : String
  value : String
  spaceAfterValue : String
  comment : String
  hasEquals : Bool
  leadingSpace : Nat
deriving DecidableEq, Repr

mutual
inductive Node where
  | kv (k : KVData)
  | empty (comment : String) (leadingSpace : Nat)
  | inc (directives : List String) (comment : String) (leadingSpace : Nat)
        (hasEquals : Bool) (subs : ConfigList)
inductive NodeList where
  | nil
  | cons (hd : Node) (tl : NodeList)
inductive BlockT where
  | host (patterns : List Pattern) (nodes : NodeList)
         (eolComment spaceBeforeComment : String) (hasEquals : Bool)
         (leadingSpace : Nat) (implicit : Bool)
  | matchB (criteria : String) (nodes : NodeList)
           (eolComment spaceBeforeComment : String) (hasEquals : Bool)
           (leadingSpace : Nat)
inductive BlockList where
  | nil
  | cons (hd : BlockT) (tl : BlockList)
inductive ConfigT where
  | mk (blocks : BlockList) (hosts : BlockList)
inductive ConfigList where
  | nil
  | cons (hd : ConfigT) (tl : ConfigList)
end

/-! ### Rendering (`String()` methods and `marshal`) -/

/-- Embeds `KV.String`, `Empty.String` and `Include.String` (an
`Include`'s sub-documents are not printed). -/
def nodeString : Node → String
  | .kv k =>
    spacesN k.leadingSpace ++ k.key ++ (if k.hasEquals then " = " else " ") ++
      k.value ++ k.spaceAfterValue ++ (if k.comment ≠ "" then "#" ++ k.comment else "")
  | .empty comment ls =>
    if comment = "" then "" else spacesN ls ++ "#" ++ comment
  | .inc dirs comment ls he _ =>
    spacesN ls ++ "Include" ++ (if he then " = " else " ") ++ joinSep " " dirs ++
      (if comment ≠ "" then " #" ++ comment else "")

/-- The node loops of `Host.String` / `Match.String`: each node is
printed followed by a newline. -/
def nodesString : NodeList → String
  | .nil => ""
  | .cons n rest => nodeString n ++ "\n" ++ nodesString rest

/-- Embeds `Host.String` and `Match.String`. -/
def blockString : BlockT → String
  | .host patterns nodes eol sbc he ls implicit =>
    (if implicit then ""
     else
       spacesN ls ++ "Host" ++ (if he then " = " else " ") ++
         joinSep " " (patterns.map patternString) ++ sbc ++
         (if eol ≠ "" then "#" ++ eol else "") ++ "\n") ++
      nodesString nodes
  | .matchB criteria nodes eol sbc he ls =>
    spacesN ls ++ "Match" ++ (if he then " = " else " ") ++ criteria ++ sbc ++
      (if eol ≠ "" then "#" ++ eol else "") ++ "\n" ++ nodesString nodes

def blocksString : BlockList → String
  | .nil => ""
  | .cons b rest => blockString b ++ blocksString rest

/-- Embeds `Config.String` / `marshal`, with `effectiveBlocks` inlined:
the primary block list is used when non-empty, else the legacy hosts. -/
def configString : ConfigT → String
  | .mk blocks hosts =>
    match blocks with
    | .nil => blocksString hosts
    | .cons _ _ => blocksString blocks

/-! ### Resolver walk -/

/-- The `Match` activation logic from the block loop of
`resolveConfig`: criteria-parse errors fail in strict mode and
deactivate the block otherwise; evaluation errors always propagate. -/
def matchBlockActive (criteria : String) (ctx : Context) (pass : passType)
    (options : resolveOptions) (spec : clientSpec) (state : resolveState)
    (env : Env) : Except Err Bool :=
  match parseMatchCriteria criteria with
  | .error e => if options.strict then .error e else .ok false
  | .ok cs =>
    match evalMatch cs ctx pass options spec state env with
    | .error e => .error e
    | .ok ok => .ok ok

mutual
/-- Embeds `resolveConfig` (block loop over `effectiveBlocks`). -/
def resolveConfigE : ConfigT → Context → passType → resolveOptions → clientSpec →
    Env → resolveState → Bool → Except Err resolveState
  | .mk blocks hosts, ctx, pass, options, spec, env, st, nm =>
    match blocks with
    | .nil => resolveBlocksE hosts ctx pass options spec env st nm
    | .cons _ _ => resolveBlocksE blocks ctx pass options spec env st nm

def resolveBlocksE : BlockList → Context → passType → resolveOptions → clientSpec →
    Env → resolveState → Bool → Except Err resolveState
  | .nil, _, _, _, _, _, st, _ => .ok st
  | .cons b rest, ctx, pass, options, spec, env, st, nm =>
    match b with
    | .host patterns nodes _ _ _ _ _ =>
      let active := if nm then false else hostMatches patterns ctx.hostArg
      match resolveNodesE nodes active ctx pass options spec env st nm with
      | .error e => .error e
      | .ok st1 => resolveBlocksE rest ctx pass options spec env st1 nm
    | .matchB criteria nodes _ _ _ _ =>
      match (if nm then .ok false
             else matchBlockActive criteria ctx pass options spec st env) with
      | .error e => .error e
      | .ok active =>
        match resolveNodesE nodes active ctx pass options spec env st nm with
        | .error e => .error e
        | .ok st1 => resolveBlocksE rest ctx pass options spec env st1 nm

/-- Embeds `resolveNodes`: `Empty` is skipped, `KV` applies the
directive, `Include` recurses into each sub-document with `neverMatch`
set when the enclosing block is inactive. -/
def resolveNodesE : NodeList → Bool → Context → passType → resolveOptions → clientSpec →
    Env → resolveState → Bool → Except Err resolveState
  | .nil, _, _, _, _, _, _, st, _ => .ok st
  | .cons n rest, active, ctx, pass, options, spec, env, st, nm =>
    match n with
    | .empty _ _ => resolveNodesE rest active ctx pass options spec env st nm
    | .kv k =>
      match applyDirective k.key k.value active options spec st with
      | .error e => .error e
      | .ok st1 => resolveNodesE rest active ctx pass options spec env st1 nm
    | .inc _ _ _ _ subs =>
      match resolveSubsE subs ctx pass options spec env st (nm || !active) with
      | .error e => .error e
      | .ok st1 => resolveNodesE rest active ctx pass options spec env st1 nm

def resolveSubsE : ConfigList → Context → passType → resolveOptions → clientSpec →
    Env → resolveState → Bool → Except Err resolveState
  | .nil, _, _, _, _, _, st, _ => .ok st
  | .cons c rest, ctx, pass, options, spec, env, st, nm =>
    match resolveConfigE c ctx pass options spec env st nm with
    | .error e => .error e
    | .ok st1 => resolveSubsE rest ctx pass options spec env st1 nm
end

/-- Loop of `applyDefaults` over the spec table: entries that are their
own canonical, supported, carry defaults and are not yet set receive
their default values. -/
def applyDefaultsAux : List specDirective → List (String × List String) →
    List (String × List String)
  | [], values => values
  | d :: rest, values =>
    applyDefaultsAux rest
      (if d.name ≠ d.canonical then values
       else if d.status ≠ "supported" then values
       else
         let key := lowerStr d.name
         match lookupV values key with
         | some _ => values
         | none =>
           match defaultValues d with
           | [] => values
           | v :: vs => if d.multi then setV values key (v :: vs) else setV values key [v])

/-- Embeds `applyDefaults`, including the `hostname`/`user` fills. -/
def applyDefaults (state : resolveState) (ctx : Context) (spec : clientSpec) :
    resolveState :=
  let values := applyDefaultsAux spec.directives state.values
  let values1 :=
    match lookupV values "hostname" with
    | some _ => values
    | none => if ctx.hostArg ≠ "" then setV values "hostname" [ctx.hostArg] else values
  let values2 :=
    match lookupV values1 "user" with
    | some _ => values1
    | none => if ctx.localUser ≠ "" then setV values1 "user" [ctx.localUser] else values1
  { state with values := values2 }

/-- Embeds `Result`. -/
structure Result where
  values : List (String × List String)
deriving DecidableEq, Repr

/-- Embeds `Result.GetAll`; a nil receiver is modelled as `none`.  The
Go method copies the slice before returning it; the copy of a list value
is the list itself in the model. -/
def Result.GetAll : Option Result → String → List String
  | none, _ => []
  | some r, key =>
    match lookupV r.values (lowerStr key) with
    | none => []
    | some vals => if vals = [] then [] else vals

/-- Embeds `Result.Get` (nil receiver modelled as `none`). -/
def Result.Get : Option Result → String → String
  | none, _ => ""
  | some r, key =>
    match Result.GetAll (some r) key with
    | [] => ""
    | v :: _ => v

/-- The config loop of `resolvePass` (nil configs are skipped by the
caller, so the list holds only real documents). -/
def resolveConfigsE : List ConfigT → Context → passType → resolveOptions → clientSpec →
    Env → resolveState → Except Err resolveState
  | [], _, _, _, _, _, st => .ok st
  | cfg :: rest, ctx, pass, options, spec, env, st =>
    match resolveConfigE cfg ctx pass options spec env st false with
    | .error e => .error e
    | .ok st1 => resolveConfigsE rest ctx pass options spec env st1

/-- Embeds `resolvePass`: a fresh empty state, the walk over all
configs, the defaults, and the final `Result`. -/
def resolvePassE (configs : List ConfigT) (ctx : Context) (pass : passType)
    (options : resolveOptions) (spec : clientSpec) (env : Env) : Except Err Result :=
  match resolveConfigsE configs ctx pass options spec env
      { values := [], ignoreUnknown := "" } with
  | .error e => .error e
  | .ok st => .ok { values := (applyDefaults st ctx spec).values }

/-! ### Instrumented walk

A ghost-instrumented twin of the walk used to state the first-wins /
accumulate claim: it performs exactly the same state evolution (it calls
the same `applyDirective` and the same activation logic) and
additionally records, for every `KV` processed in walk order, the
assignment event the directive produces.  `kvEvents` reads the emission
conditions straight off `applyDirective`: an event is produced exactly
when the key resolves in the spec, the entry is not `unsupported`, and
the block is active. -/

structure AEvent where
  key : String
  value : String
  multi : Bool
deriving DecidableEq, Repr

def kvEvents (spec : clientSpec) (key value : String) (active : Bool) : List AEvent :=
  match byName spec (lowerStr (trimStr key)) with
  | none => []
  | some d =>
    if d.status = "unsupported" then []
    else if !active then []
    else
      [{ key := lowerStr (if d.aliasFor ≠ "" then d.aliasFor else d.canonical),
         value := value, multi := d.multi }]

mutual
def resolveConfigT : ConfigT → Context → passType → resolveOptions → clientSpec →
    Env → resolveState → Bool → Except Err (resolveState × List AEvent)
  | .mk blocks hosts, ctx, pass, options, spec, env, st, nm =>
    match blocks with
    | .nil => resolveBlocksT hosts ctx pass options spec env st nm
    | .cons _ _ => resolveBlocksT blocks ctx pass options spec env st nm

def resolveBlocksT : BlockList → Context → passType → resolveOptions → clientSpec →
    Env → resolveState → Bool → Except Err (resolveState × List AEvent)
  | .nil, _, _, _, _, _, st, _ => .ok (st, [])
  | .cons b rest, ctx, pass, options, spec, env, st, nm =>
    match b with
    | .host patterns nodes _ _ _ _ _ =>
      let active := if nm then false else hostMatches patterns ctx.hostArg
      match resolveNodesT nodes active ctx pass options spec env st nm with
      | .error e => .error e
      | .ok (st1, tr1) =>
        match resolveBlocksT rest ctx pass options spec env st1 nm with
        | .error e => .error e
        | .ok (st2, tr2) => .ok (st2, tr1 ++ tr2)
    | .matchB criteria nodes _ _ _ _ =>
      match (if nm then .ok false
             else matchBlockActive criteria ctx pass options spec st env) with
      | .error e => .error e
      | .ok active =>
        match resolveNodesT nodes active ctx pass options spec env st nm with
        | .error e => .error e
        | .ok (st1, tr1) =>
          match resolveBlocksT rest ctx pass options spec env st1 nm with
          | .error e => .error e
          | .ok (st2, tr2) => .ok (st2, tr1 ++ tr2)

def resolveNodesT : NodeList → Bool → Context → passType → resolveOptions → clientSpec →
    Env → resolveState → Bool → Except Err (resolveState × List AEvent)
  | .nil, _, _, _, _, _, _, st, _ => .ok (st, [])
  | .cons n rest, active, ctx, pass, options, spec, env, st, nm =>
    match n with
    | .empty _ _ => resolveNodesT rest active ctx pass options spec env st nm
    | .kv k =>
      match applyDirective k.key k.value active options spec st with
      | .error e => .error e
      | .ok st1 =>
        match resolveNodesT rest active ctx pass options spec env st1 nm with
        | .error e => .error e
        | .ok (st2, tr2) => .ok (st2, kvEvents spec k.key k.value active ++ tr2)
    | .inc _ _ _ _ subs =>
      match resolveSubsT subs ctx pass options spec env st (nm || !active) with
      | .error e => .error e
      | .ok (st1, tr1) =>
        match resolveNodesT rest active ctx pass options spec env st1 nm with
        | .error e => .error e
        | .ok (st2, tr2) => .ok (st2, tr1 ++ tr2)

def resolveSubsT : ConfigList → Context → passType → resolveOptions → clientSpec →
    Env → resolveState → Bool → Except Err (resolveState × List AEvent)
  | .nil, _, _, _, _, _, st, _ => .ok (st, [])
  | .cons c rest, ctx, pass, options, spec, env, st, nm =>
    match resolveConfigT c ctx pass options spec env st nm with
    | .error e => .error e
    | .ok (st1, tr1) =>
      match resolveSubsT rest ctx pass options spec env st1 nm with
      | .error e => .error e
      | .ok (st2, tr2) => .ok (st2, tr1 ++ tr2)
end

def resolveConfigsT : List ConfigT → Context → passType → resolveOptions → clientSpec →
    Env → resolveState → Except Err (resolveState × List AEvent)
  | [], _, _, _, _, _, st => .ok (st, [])
  | cfg :: rest, ctx, pass, options, spec, env, st =>
    match resolveConfigT cfg ctx pass options spec env st false with
    | .error e => .error e
    | .ok (st1, tr1) =>
      match resolveConfigsT rest ctx pass options spec env st1 with
      | .error e => .error e
      | .ok (st2, tr2) => .ok (st2, tr1 ++ tr2)

def resolvePassT (configs : List ConfigT) (ctx : Context) (pass : passType)
    (options : resolveOptions) (spec : clientSpec) (env : Env) :
    Except Err (Result × List AEvent) :=
  match resolveConfigsT configs ctx pass options spec env
      { values := [], ignoreUnknown := "" } with
  | .error e => .error e
  | .ok (st, tr) => .ok ({ values := (applyDefaults st ctx spec).values }, tr)

/-- The events of a trace that target one canonical storage key. -/
def eventsAt (c : String) (tr : List AEvent) : List AEvent :=
  tr.filter (fun e => e.key = c)

/-- Declarative assignment policy of `applyDirective` for a single
event at key `c`: first-wins for `ignoreunknown` and single-valued
entries, append for multi-valued entries. -/
def applyEvent (c : String) (cur : Option (List String)) (e : AEvent) :
    Option (List String) :=
  if c = "ignoreunknown" then
    match cur with
    | some l => some l
    | none => some [e.value]
  else if e.multi then some (cur.getD [] ++ [e.value])
  else
    match cur with
    | some l => some l
    | none => some [e.value]

def applyEvents (c : String) (cur : Option (List String)) (evs : List AEvent) :
    Option (List String) :=
  evs.foldl (applyEvent c) cur

/-! ### Include loader depth bound

`NewInclude` is in the source; the parser that invokes it (calling
`NewInclude` with the enclosing depth plus one, and parsing each matched
file at that same new depth) is not. -/

def maxRecurseDepth : Nat := 5

/-- The depth guard at the head of `NewInclude`: reject with
`DepthExceeded` when the depth argument exceeds `maxRecurseDepth`. -/
def NewIncludeGuard (depth : Nat) : Option Err :=
  if depth > maxRecurseDepth then some .depthExceeded else none

/-- A file system for the include model: each file name maps to the
list of its `Include` nodes, each node carrying its matched paths. -/
def IncFS : Type := String → List (List String)

inductive IncStep where
  | file (depth : Nat) (name : String)
  | nodes (depth : Nat) (l : List (List String))
  | paths (depth : Nat) (l : List String)

/-- Modelled from the spec: the parser/include-loader recursion of
§4.4–4.5, which is absent from the source tree.  Parsing a file walks
its `Include` nodes; each node constructs an include at the enclosing
depth plus one (`NewIncludeGuard`, embedded from `NewInclude`), and each
matched path is parsed as a sub-document at that new depth.  The fuel
argument makes the recursion structural; it is ghost — each nesting
level consumes finitely many steps and the guard stops all chains at
depth `maxRecurseDepth`, so any fuel above a small multiple of the
depth bound gives the loader's exact behaviour. -/
def parseStepM (fs : IncFS) : Nat → IncStep → Except Err Unit
  | 0, _ => .error .depthExceeded
  | fuel + 1, item =>
    match item with
    | .file depth name => parseStepM fs fuel (.nodes depth (fs name))
    | .nodes _ [] => .ok ()
    | .nodes depth (paths :: rest) =>
      match NewIncludeGuard (depth + 1) with
      | some e => .error e
      | none =>
        match parseStepM fs fuel (.paths (depth + 1) paths) with
        | .error e => .error e
        | .ok _ => parseStepM fs fuel (.nodes depth rest)
    | .paths _ [] => .ok ()
    | .paths depth (p :: rest) =>
      match parseStepM fs fuel (.file depth p) with
      | .error e => .error e
      | .ok _ => parseStepM fs fuel (.paths depth rest)

/-- Parsing a top-level file in the include model. -/
def parseFileM (fs : IncFS) (fuel depth : Nat) (name : String) : Except Err Unit :=
  parseStepM fs fuel (.file depth name)

/-! ### A small parser for round-trip checking

Modelled from the spec: the lexer/parser of §4.3–4.4 is absent from the
source tree.  This model is restricted to the constructs exercised by
the round-trip claim: documents are newline-terminated lines; a `Host `
line opens a host block whose whitespace-separated tokens are each
compiled with `NewPattern` (§4.1, §4.4); a line indented by two spaces
is a key/value pair (`key` up to the first space, `value` the rest);
every document begins with the implicit `Host *` block, which receives
the directives before the first `Host` line (§4.4); the parser appends
each block to both the primary block list and the legacy hosts list. -/

def tabToSpace (s : String) : String :=
  ⟨s.data.map (fun c => if c = '\t' then ' ' else c)⟩

def fieldsOf (s : String) : List String :=
  (splitStr (fun c => c = ' ' ∨ c = '\t') s).filter (fun t => t ≠ "")

def mapPatterns : List String → Except Err (List Pattern)
  | [] => .ok []
  | t :: rest =>
    match NewPattern t with
    | .error e => .error e
    | .ok p =>
      match mapPatterns rest with
      | .error e => .error e
      | .ok ps => .ok (p :: ps)

/-- The pattern produced by `NewPattern "*"` (the implicit block's
pattern, `matchAll` in the source). -/
def matchAllPattern : Pattern := { str := "*", toks := [.star], not := false }

inductive LineKind where
  | hostLine (fields : List String)
  | kvLine (key value : String)

def parseLineSimple (line : String) : Option LineKind :=
  match line.data with
  | 'H' :: 'o' :: 's' :: 't' :: ' ' :: rest => some (.hostLine (fieldsOf ⟨rest⟩))
  | ' ' :: ' ' :: rest =>
    let key := rest.takeWhile (fun c => c ≠ ' ')
    (match rest.drop key.length with
     | ' ' :: v => some (.kvLine ⟨key⟩ ⟨v⟩)
     | _ => none)
  | _ => none

def parseLinesSimple : List String → Option (List LineKind)
  | [] => some []
  | l :: rest =>
    match parseLineSimple l with
    | none => none
    | some k =>
      match parseLinesSimple rest with
      | none => none
      | some ks => some (k :: ks)

def listToNodeList : List Node → NodeList
  | [] => .nil
  | n :: rest => .cons n (listToNodeList rest)

def listToBlockList : List BlockT → BlockList
  | [] => .nil
  | b :: rest => .cons b (listToBlockList rest)

def mkHostBlock (pats : List Pattern) (nodes : List Node) (implicit : Bool) : BlockT :=
  .host pats (listToNodeList nodes) "" "" false 0 implicit

def mkKVNode (key value : String) : Node :=
  .kv { key := key, value := value, spaceAfterValue := "", comment := "",
        hasEquals := false, leadingSpace := 2 }

def assembleBlocks : List LineKind → List Pattern → List Node → Bool → Option (List BlockT)
  | [], curPats, curNodes, curImpl => some [mkHostBlock curPats curNodes curImpl]
  | .hostLine fields :: rest, curPats, curNodes, curImpl =>
    (match mapPatterns fields with
     | .error _ => none
     | .ok ps =>
       match assembleBlocks rest ps [] false with
       | none => none
       | some blocks => some (mkHostBlock curPats curNodes curImpl :: blocks))
  | .kvLine k v :: rest, curPats, curNodes, curImpl =>
    assembleBlocks rest curPats (curNodes ++ [mkKVNode k v]) curImpl

def splitLinesStrict (s : String) : Option (List String) :=
  let parts := splitStr (fun c => c = '\n') s
  if parts ≠ [] ∧ parts.getLast? = some "" then some parts.dropLast else none

def parseSimpleConfig (s : String) : Option ConfigT :=
  match splitLinesStrict s with
  | none => none
  | some lines =>
    match parseLinesSimple lines with
    | none => none
    | some lks =>
      match assembleBlocks lks [matchAllPattern] [] true with
      | none => none
      | some blocks => some (.mk (listToBlockList blocks) (listToBlockList blocks))

/-! ### Concrete instances used by counterexamples and witnesses -/

/-- A context with no callbacks. -/
def ctxPlain : Context :=
  { hostArg := "foo", originalHost := "foo", localUser := "me", version := "9.9",
    sessionType := "shell", command := "", exec := none, localNetwork := none }

def envPlain : Env :=
  { localHost := "lh", homeDir := "/home/me", uid := "1000", sha1Hex := fun _ => "" }

def optsLoose : resolveOptions := { strict := false, finalPass := false }

def optsStrict : resolveOptions := { strict := true, finalPass := false }

/-- A spec table with a single-valued `port` (uint, default 22), a
multi-valued `identityfile`, and a single-valued `user`. -/
def specBasic : clientSpec :=
  { openSSHVersion := "9.9",
    directives :=
      [ { name := "port", canonical := "port", status := "supported", type := "uint",
          multi := false, default := ["22"], aliasFor := "", enum := [] },
        { name := "identityfile", canonical := "identityfile", status := "supported",
          type := "string", multi := true, default := [], aliasFor := "", enum := [] },
        { name := "user", canonical := "user", status := "supported", type := "string",
          multi := false, default := [], aliasFor := "", enum := [] } ] }

/-- A spec table containing a deprecated alias `olda → newa` whose
target is supported and carries a default (the shape the specification's
data-model invariants prescribe for aliases). -/
def specAliasCex : clientSpec :=
  { openSSHVersion := "",
    directives :=
      [ { name := "olda", canonical := "newa", status := "deprecated", type := "string",
          multi := true, default := [], aliasFor := "newa", enum := [] },
        { name := "newa", canonical := "newa", status := "supported", type := "string",
          multi := true, default := ["7"], aliasFor := "", enum := [] } ] }

/-- A spec table with a supported alias `a2 → c2` (the shape the
generator actually produces) and an unrelated deprecated entry. -/
def specAliasOk : clientSpec :=
  { openSSHVersion := "",
    directives :=
      [ { name := "a2", canonical := "c2", status := "supported", type := "string",
          multi := true, default := [], aliasFor := "c2", enum := [] },
        { name := "c2", canonical := "c2", status := "supported", type := "string",
          multi := true, default := ["9"], aliasFor := "", enum := [] },
        { name := "zz", canonical := "zz", status := "deprecated", type := "string",
          multi := false, default := [], aliasFor := "", enum := [] } ] }

def c2Entry : specDirective :=
  { name := "c2", canonical := "c2", status := "supported", type := "string",
    multi := true, default := ["9"], aliasFor := "", enum := [] }

def zzEntry : specDirective :=
  { name := "zz", canonical := "zz", status := "deprecated", type := "string",
    multi := false, default := [], aliasFor := "", enum := [] }

def portEntry : specDirective :=
  { name := "port", canonical := "port", status := "supported", type := "uint",
    multi := false, default := ["22"], aliasFor := "", enum := [] }

def patStar : Pattern := { str := "*", toks := [.star], not := false }

def patFoo : Pattern := { str := "foo", toks := compilePat "foo", not := false }

/-- A config whose single `Match` block combines `all` with `host=x`
(a disallowed combination). -/
def cfgMatchAll : ConfigT :=
  .mk (.cons (.matchB "host=x all" (.cons (mkKVNode "Port" "2222") .nil) "" "" false 0)
    .nil) .nil

def csMatchAll : List matchCriterion :=
  [{ name := "host", value := "x", negate := false },
   { name := "all", value := "", negate := false }]

/-- Include model: a file that includes itself. -/
def fsLoop : IncFS := fun _ => [["loop"]]

/-- Include model: a chain of exactly five nested includes. -/
def fsChain5 : IncFS := fun n =>
  if n = "f0" then [["f1"]]
  else if n = "f1" then [["f2"]]
  else if n = "f2" then [["f3"]]
  else if n = "f3" then [["f4"]]
  else if n = "f4" then [["f5"]]
  else []

/-- Two host blocks declaring `Port` and `IdentityFile`, the wildcard
block first. -/
def cfgTwoHosts : ConfigT :=
  .mk (.cons (.host [patStar]
        (.cons (mkKVNode "Port" "2222") (.cons (mkKVNode "IdentityFile" "f1") .nil))
        "" "" false 0 true)
       (.cons (.host [patFoo]
          (.cons (mkKVNode "Port" "2200") (.cons (mkKVNode "IdentityFile" "f2") .nil))
          "" "" false 0 false)
        .nil)) .nil

/-- The result of resolving `cfgTwoHosts` for host `foo` (walk values,
then the `hostname`/`user` default fills). -/
def resTwoHosts : Result :=
  { values := [("port", ["2222"]), ("identityfile", ["f1", "f2"]),
               ("hostname", ["foo"]), ("user", ["me"])] }

/-- The assignment events of that walk, in walk order. -/
def trTwoHosts : List AEvent :=
  [{ key := "port", value := "2222", multi := false },
   { key := "identityfile", value := "f1", multi := true },
   { key := "port", value := "2200", multi := false },
   { key := "identityfile", value := "f2", multi := true }]

def critLN : matchCriterion := { name := "localnetwork", value := "10.0.0.0/8", negate := true }

def critExec : matchCriterion := { name := "exec", value := "true", negate := true }

def ctxExecErr : Context := { ctxPlain with exec := some (fun _ => .error "boom") }

def stEmpty : resolveState := { values := [], ignoreUnknown := "" }

end SshConfig

deriving instance DecidableEq for Except

namespace SshConfig

/-! ## Theorems -/

/-- Scan/accumulator form of `matchPatternList` versus the declarative
negation/positive semantics. -/
theorem matchPatternListAux_spec (v : String) (ci : Bool) :
    ∀ (parts : List String) (m : Bool),
      matchPatternListAux v ci parts m =
        (!listNegHit v ci parts && (m || listPosHit v ci parts))
  | [], m => by
    simp [matchPatternListAux, listNegHit, listPosHit]
  | part :: rest, m => by
    by_cases hp : part = ""
    · simp [matchPatternListAux, listNegHit, listPosHit, hp,
        matchPatternListAux_spec v ci rest m]
    · cases hb : startsBang part <;> cases hm : partMatches v ci part <;>
        simp only [partMatches, hb, if_neg hp, if_pos, if_false, Bool.false_eq_true,
          ite_false, ite_true] at hm <;>
        simp [matchPatternListAux, listNegHit, listPosHit, hp, hb, hm, partMatches,
          matchPatternListAux_spec v ci rest, Bool.and_assoc]

/-- Scan/accumulator form of `Host.Matches` versus the declarative
negation/positive semantics. -/
theorem hostMatchesAux_spec (a : String) :
    ∀ (ps : List Pattern) (found : Bool),
      hostMatchesAux a ps found =
        (!(ps.any fun p => p.not && tokMatch p.toks a.data)
          && (found || ps.any fun p => !p.not && tokMatch p.toks a.data))
  | [], found => by simp [hostMatchesAux]
  | p :: rest, found => by
    cases hm : tokMatch p.toks a.data <;> cases hn : p.not <;>
      simp [hostMatchesAux, hm, hn, hostMatchesAux_spec a rest]

/-- C6: for every pattern list and value, a matching negated fragment
makes the whole list not match, irrespective of the other fragments and
of their order; with no negated hit, the list matches exactly when some
positive fragment matches.  The same shape holds for `Host.Matches`
over a host block's compiled patterns. -/
theorem pattern_list_negation_semantics :
    (∀ (value patternList : String) (ci : Bool),
      matchPatternList value patternList ci =
        (!listNegHit (if ci then lowerStr value else value) ci (splitPatternList patternList)
          && listPosHit (if ci then lowerStr value else value) ci (splitPatternList patternList)))
    ∧ (∀ (patterns : List Pattern) (hostAlias : String),
      hostMatches patterns hostAlias =
        (!(patterns.any fun p => p.not && tokMatch p.toks hostAlias.data)
          && patterns.any fun p => !p.not && tokMatch p.toks hostAlias.data)) := by
  constructor
  · intro v pl ci
    rw [matchPatternList, matchPatternListAux_spec]
    simp
  · intro ps a
    rw [hostMatches, hostMatchesAux_spec]
    simp

/-- C10: `Get` on a nil result is the empty string, `GetAll` on a nil
result is the empty list, and on any result `Get` is the head of
`GetAll` (so both accessors are total). -/
theorem result_nil_get_getall :
    (∀ key, Result.Get none key = "")
    ∧ (∀ key, Result.GetAll none key = [])
    ∧ (∀ (r : Option Result) (key : String),
        Result.Get r key = (Result.GetAll r key).headD "") := by
  refine ⟨fun _ => rfl, fun _ => rfl, ?_⟩
  intro r key
  cases r with
  | none => rfl
  | some r =>
    cases h : Result.GetAll (some r) key with
    | nil => simp [Result.Get, h]
    | cons v vs => simp [Result.Get, h]

/-- C3 counterexample: in a spec shaped as the data-model section
prescribes (the alias is `deprecated` and points at a supported
canonical entry carrying a default), `supportedDirective` returns
absent for the alias without following the hop, so `Default` and
`SupportsMultiple` differ between the alias and its target. -/
theorem supportedDirective_alias_cex :
    supportedDirective specAliasCex "olda" = none
    ∧ Default specAliasCex "olda" = ""
    ∧ Default specAliasCex "newa" = "7"
    ∧ Default specAliasCex "olda" ≠ Default specAliasCex "newa"
    ∧ SupportsMultiple specAliasCex "olda" = false
    ∧ SupportsMultiple specAliasCex "newa" = true := by
  refine ⟨by decide, by decide, by decide, by decide, by decide, by decide⟩

/-- C3 (amended): a keyword whose own entry is not `supported` yields
absent immediately (no alias hop is attempted); and whenever
`supportedDirective` does resolve two keywords to the same entry — in
particular an alias whose own status is supported and its canonical
target — `Default` and `SupportsMultiple` agree between them. -/
theorem supportedDirective_alias_amended (spec : clientSpec) :
    (∀ (k : String) (d : specDirective),
      byName spec (lowerStr k) = some d → d.status ≠ "supported" →
      supportedDirective spec k = none)
    ∧ (∀ (a : String) (c : specDirective),
      supportedDirective spec a = some c →
      supportedDirective spec c.name = some c →
      Default spec a = Default spec c.name
        ∧ SupportsMultiple spec a = SupportsMultiple spec c.name) := by
  constructor
  · intro k d hfind hstatus
    unfold supportedDirective
    by_cases hk : k = ""
    · simp [hk]
    · simp only [if_neg hk]
      rw [hfind]
      simp [hstatus]
  · intro a c h1 h2
    constructor
    · unfold Default
      rw [h1, h2]
    · unfold SupportsMultiple
      rw [h1, h2]

theorem supportedDirective_alias_amended_witness :
    supportedDirective specAliasOk "zz" = none
    ∧ Default specAliasOk "a2" = Default specAliasOk "c2" := by
  constructor
  · exact (supportedDirective_alias_amended specAliasOk).1 "zz" zzEntry (by decide) (by decide)
  · exact ((supportedDirective_alias_amended specAliasOk).2 "a2" c2Entry (by decide) (by decide)).1

/-- C7: constructing an include at enclosing depth `d` is rejected with
`DepthExceeded` whenever `d + 1` exceeds the bound of 5 (first
conjunct, via the guard `NewInclude` performs); a chain of exactly five
nested includes still loads; and a file that includes itself terminates
with `DepthExceeded` instead of recursing forever. -/
theorem include_depth_exceeded_bound :
    (∀ (fs : IncFS) (fuel d : Nat) (paths : List String) (rest : List (List String)),
      maxRecurseDepth < d + 1 →
      parseStepM fs (fuel + 1) (.nodes d (paths :: rest)) = .error .depthExceeded)
    ∧ parseFileM fsChain5 64 0 "f0" = .ok ()
    ∧ parseFileM fsLoop 64 0 "loop" = .error .depthExceeded := by
  refine ⟨?_, by decide, by decide⟩
  intro fs fuel d paths rest h
  simp [parseStepM, NewIncludeGuard, h]

theorem include_depth_exceeded_bound_witness :
    maxRecurseDepth < 5 + 1
    ∧ parseStepM fsLoop 1 (.nodes 5 [["loop"]]) = .error .depthExceeded :=
  ⟨by decide, include_depth_exceeded_bound.1 fsLoop 0 5 ["loop"] [] (by decide)⟩

/-- C9: in non-strict mode, a negated `exec` or `localnetwork`
criterion evaluates to `ok false` — negation not applied — whenever the
callback is missing or the callback returns an error, so such a
criterion can never activate its block on those paths. -/
theorem negated_callback_paths_stay_false
    (c : matchCriterion) (ctx : Context) (pass : passType) (options : resolveOptions)
    (spec : clientSpec) (state : resolveState) (env : Env)
    (hstrict : options.strict = false) (_hneg : c.negate = true) :
    (c.name = "localnetwork" → ctx.localNetwork = none →
      evalCriterion c ctx pass options spec state env = .ok false)
    ∧ (∀ (f : String → Except String Bool) (msg : String),
        c.name = "localnetwork" → ctx.localNetwork = some f → f c.value = .error msg →
        evalCriterion c ctx pass options spec state env = .ok false)
    ∧ (c.name = "exec" → ctx.exec = none →
        evalCriterion c ctx pass options spec state env = .ok false)
    ∧ (∀ (f : String → Except String Bool) (msg : String),
        c.name = "exec" → ctx.exec = some f →
        f (expandMatchExec c.value ctx state spec env) = .error msg →
        evalCriterion c ctx pass options spec state env = .ok false) := by
  refine ⟨?_, ?_, ?_, ?_⟩
  · intro hname hcb
    simp [evalCriterion, hname, hcb, hstrict]
  · intro f msg hname hcb herr
    simp [evalCriterion, hname, hcb, herr, hstrict]
  · intro hname hcb
    simp [evalCriterion, hname, hcb, hstrict]
  · intro f msg hname hcb herr
    simp [evalCriterion, hname, hcb, herr, hstrict]

theorem negated_callback_paths_stay_false_witness :
    evalCriterion critLN ctxPlain .passInitial optsLoose specBasic stEmpty envPlain = .ok false
    ∧ evalCriterion critExec ctxExecErr .passInitial optsLoose specBasic stEmpty envPlain
        = .ok false := by
  constructor
  · exact (negated_callback_paths_stay_false critLN ctxPlain .passInitial optsLoose specBasic
      stEmpty envPlain rfl rfl).1 rfl rfl
  · exact (negated_callback_paths_stay_false critExec ctxExecErr .passInitial optsLoose specBasic
      stEmpty envPlain rfl rfl).2.2.2 (fun _ => .error "boom") "boom" rfl rfl rfl

/-- C4: in strict mode a value that fails its directive's type check
makes `applyDirective` fail before the activation gate — for an active
and for an inactive block alike — and therefore a document whose host
block contains the invalid assignment fails to resolve under any
`neverMatch` flag, which is exactly the mode in which included
sub-documents under an inactive block are walked. -/
theorem strict_validation_before_gating
    (spec : clientSpec) (options : resolveOptions) (key value : String)
    (d : specDirective) (err : Err)
    (hstrict : options.strict = true)
    (hfind : byName spec (lowerStr (trimStr key)) = some d)
    (hunsupp : d.status ≠ "unsupported")
    (hdep : ¬(d.status = "deprecated" ∧ d.aliasFor = ""))
    (hval : validateValue d value = some err) :
    (∀ (active : Bool) (state : resolveState),
      applyDirective key value active options spec state = .error err)
    ∧ (∀ (ps : List Pattern) (ctx : Context) (pass : passType) (env : Env)
        (st : resolveState) (nm : Bool),
      resolveConfigE
        (.mk (.cons (.host ps (.cons (.kv
            { key := key, value := value, spaceAfterValue := "", comment := "",
              hasEquals := false, leadingSpace := 2 }) .nil) "" "" false 0 false) .nil) .nil)
        ctx pass options spec env st nm = .error err)
    ∧ (∀ (ps : List Pattern) (ctx : Context) (pass : passType) (env : Env)
        (st : resolveState) (active nm : Bool) (dirs : List String),
      resolveNodesE
        (.cons (.inc dirs "" 0 false (.cons
          (.mk (.cons (.host ps (.cons (.kv
              { key := key, value := value, spaceAfterValue := "", comment := "",
                hasEquals := false, leadingSpace := 2 }) .nil) "" "" false 0 false) .nil) .nil)
          .nil)) .nil)
        active ctx pass options spec env st nm = .error err) := by
  have hone : ∀ (active : Bool) (state : resolveState),
      applyDirective key value active options spec state = .error err := by
    intro active state
    have hdep1 : ¬(d.status = "deprecated" ∧ d.aliasFor = "" ∧ options.strict) := by
      intro h
      exact hdep ⟨h.1, h.2.1⟩
    simp [applyDirective, hfind, hunsupp, hdep1, hstrict, hval]
    intro h1 h2
    exact absurd ⟨h1, h2⟩ hdep
  refine ⟨hone, ?_, ?_⟩
  · intro ps ctx pass env st nm
    simp [resolveConfigE, resolveBlocksE, resolveNodesE, hone]
  · intro ps ctx pass env st active nm dirs
    simp [resolveNodesE, resolveSubsE, resolveConfigE, resolveBlocksE, hone]

theorem strict_validation_before_gating_witness :
    applyDirective "Port" "nope" false optsStrict specBasic stEmpty
        = .error (.invalidUint "port")
    ∧ resolveNodesE
        (.cons (.inc ["other"] "" 0 false (.cons
          (.mk (.cons (.host [patFoo] (.cons (.kv
              { key := "Port", value := "nope", spaceAfterValue := "", comment := "",
                hasEquals := false, leadingSpace := 2 }) .nil) "" "" false 0 false) .nil) .nil)
          .nil)) .nil)
        false ctxPlain .passInitial optsStrict specBasic envPlain stEmpty true
        = .error (.invalidUint "port") := by
  constructor
  · exact (strict_validation_before_gating specBasic optsStrict "Port" "nope" portEntry
      (.invalidUint "port") rfl (by decide) (by decide) (by decide) (by decide)).1 false stEmpty
  · exact (strict_validation_before_gating specBasic optsStrict "Port" "nope" portEntry
      (.invalidUint "port") rfl (by decide) (by decide) (by decide) (by decide)).2.2
      [patFoo] ctxPlain .passInitial envPlain stEmpty false true ["other"]

/-- The `Match all` combination check only returns an error for
non-empty criteria lists. -/
theorem validateMatchAllAux_ne_nil (all0 : List matchCriterion) :
    ∀ (i : Nat) (l : List matchCriterion) (e : Err),
      validateMatchAllAux all0 i l = some e → l ≠ []
  | _, [], _ => by simp [validateMatchAllAux]
  | _, _ :: _, _ => by simp

/-- C5 counterexample: with strict mode off, resolving a document whose
`Match` block combines `all` with `host=x` returns an error instead of
treating the block as inactive. -/
theorem match_all_nonstrict_error_cex :
    optsLoose.strict = false
    ∧ resolveConfigE cfgMatchAll ctxPlain .passInitial optsLoose specBasic envPlain
        stEmpty false = .error .matchAllCombined := by
  exact ⟨rfl, by decide⟩

/-- C5 (amended): a disallowed `Match all` combination that survives
criteria parsing fails `Resolve` in strict *and* in non-strict mode:
the violation is detected during match evaluation and that error
propagates regardless of strictness. -/
theorem match_all_combination_propagates
    (raw : String) (cs : List matchCriterion) (err : Err)
    (hp : parseMatchCriteria raw = .ok cs)
    (hv : validateMatchAll cs = some err) :
    ∀ (options : resolveOptions) (ctx : Context) (pass : passType) (spec : clientSpec)
      (env : Env) (st : resolveState) (nodes : NodeList) (rest : BlockList)
      (hosts : BlockList) (eol sbc : String) (he : Bool) (ls : Nat),
      resolveConfigE (.mk (.cons (.matchB raw nodes eol sbc he ls) rest) hosts)
        ctx pass options spec env st false = .error err := by
  intro options ctx pass spec env st nodes rest hosts eol sbc he ls
  have hne : cs ≠ [] := validateMatchAllAux_ne_nil cs 0 cs err hv
  have heval : evalMatch cs ctx pass options spec st env = .error err := by
    unfold evalMatch
    simp [hne, hv]
  have hact : matchBlockActive raw ctx pass options spec st env = .error err := by
    unfold matchBlockActive
    rw [hp]
    simp [heval]
  simp [resolveConfigE, resolveBlocksE, hact]

theorem match_all_combination_propagates_witness :
    resolveConfigE cfgMatchAll ctxPlain .passInitial optsStrict specBasic envPlain
        stEmpty false = .error .matchAllCombined :=
  match_all_combination_propagates "host=x all" csMatchAll .matchAllCombined
    (by decide) (by decide) optsStrict ctxPlain .passInitial specBasic envPlain
    stEmpty (.cons (mkKVNode "Port" "2222") .nil) .nil .nil "" "" false 0

/-- C2 (evaluation at the failing input): the input
`"Host !bastion\n  Port 2222\n"` parses, but rendering the resulting
document yields `"Host bastion\n  Port 2222\n"` — the `!` on the host
pattern is lost, because `NewPattern` stores the negation-stripped text
and `Pattern.String` returns that stored text.  The input has no tabs,
so the documented normalisation is the identity here and the round-trip
equation fails. -/
theorem render_drops_negated_host_pattern :
    Option.map configString (parseSimpleConfig "Host !bastion\n  Port 2222\n")
      = some "Host bastion\n  Port 2222\n"
    ∧ tabToSpace "Host !bastion\n  Port 2222\n" = "Host !bastion\n  Port 2222\n"
    ∧ Option.map configString (parseSimpleConfig "Host !bastion\n  Port 2222\n")
      ≠ some (tabToSpace "Host !bastion\n  Port 2222\n")
    ∧ (NewPattern "!bastion").map patternString = .ok "bastion" := by
  exact ⟨by decide, by decide, by decide, by decide⟩

/-! ### Lemmas for the first-wins / accumulate claim -/

theorem lookupV_setV :
    ∀ (m : List (String × List String)) (k : String) (v : List String) (k' : String),
      lookupV (setV m k v) k' = if k = k' then some v else lookupV m k'
  | [], k, v, k' => by
    by_cases h : k = k' <;> simp [setV, lookupV, h]
  | (k0, v0) :: rest, k, v, k' => by
    by_cases h0 : k0 = k
    · subst h0
      by_cases h : k0 = k' <;> simp [setV, lookupV, h]
    · simp only [setV, if_neg h0]
      by_cases h : k0 = k'
      · subst h
        have hkk : ¬(k = k0) := fun he => h0 he.symm
        simp [lookupV, hkk]
      · simp [lookupV, h, lookupV_setV rest k v k']

theorem eventsAt_append (c : String) (t1 t2 : List AEvent) :
    eventsAt c (t1 ++ t2) = eventsAt c t1 ++ eventsAt c t2 := by
  simp [eventsAt, List.filter_append]

theorem applyEvents_append (c : String) (cur : Option (List String)) (t1 t2 : List AEvent) :
    applyEvents c cur (t1 ++ t2) = applyEvents c (applyEvents c cur t1) t2 := by
  simp [applyEvents, List.foldl_append]

theorem eventsAt_one (c : String) (e : AEvent) :
    eventsAt c [e] = if e.key = c then [e] else [] := by
  by_cases h : e.key = c <;> simp [eventsAt, h]

theorem applyEvents_one (c : String) (cur : Option (List String)) (e : AEvent) :
    applyEvents c cur [e] = applyEvent c cur e := rfl

/-- One `applyDirective` step changes the state at key `c` exactly as
the declarative assignment policy applied to the events the step emits. -/
theorem applyDirective_effect
    (key value : String) (active : Bool) (options : resolveOptions)
    (spec : clientSpec) (st st1 : resolveState)
    (h : applyDirective key value active options spec st = .ok st1) (c : String) :
    lookupV st1.values c =
      applyEvents c (lookupV st.values c) (eventsAt c (kvEvents spec key value active)) := by
  simp only [applyDirective] at h
  unfold kvEvents
  cases hfind : byName spec (lowerStr (trimStr key)) with
  | none =>
    rw [hfind] at h
    have hst : st1 = st := by
      by_cases hs : options.strict = true
      · by_cases hig : matchesIgnoreUnknown st.ignoreUnknown (lowerStr (trimStr key)) = true
        · simp [hs, hig] at h
          exact h.symm
        · simp [hs, hig] at h
      · simp [hs] at h
        exact h.symm
    subst hst
    simp [eventsAt, applyEvents]
  | some d =>
    rw [hfind] at h
    by_cases hUn : d.status = "unsupported"
    · have hst : st1 = st := by
        by_cases hs : options.strict = true
        · simp [hUn, hs] at h
        · simp [hUn, hs] at h
          exact h.symm
      subst hst
      simp [hUn, eventsAt, applyEvents]
    · by_cases hDep : (d.status = "deprecated" ∧ d.aliasFor = "" ∧ options.strict = true)
      · simp [hUn, hDep] at h
      · cases hvm : (if options.strict = true then validateValue d value else none) with
        | some e => simp [hUn, hDep, hvm] at h
        | none =>
          simp only [if_neg hUn, if_neg hDep, hvm] at h
          cases active with
          | false =>
            simp at h
            subst h
            simp [hUn, eventsAt, applyEvents]
          | true =>
            simp only [Bool.not_true, Bool.false_eq_true, if_false] at h
            simp only [if_neg hUn, Bool.not_true, Bool.false_eq_true, if_false]
            generalize lowerStr (if d.aliasFor ≠ "" then d.aliasFor else d.canonical) = canon
              at h ⊢
            by_cases hiu : canon = "ignoreunknown"
            · rw [hiu] at h ⊢
              cases hlk : lookupV st.values "ignoreunknown" with
              | some l =>
                rw [hlk] at h
                simp at h
                subst h
                by_cases hc : c = "ignoreunknown"
                · subst hc
                  simp [eventsAt_one, applyEvents_one, applyEvent, hlk]
                · have hc' : ¬("ignoreunknown" = c) := fun he => hc he.symm
                  simp [eventsAt_one, hc', applyEvents]
              | none =>
                rw [hlk] at h
                simp at h
                subst h
                by_cases hc : c = "ignoreunknown"
                · subst hc
                  simp [eventsAt_one, applyEvents_one, applyEvent, hlk, lookupV_setV]
                · have hc' : ¬("ignoreunknown" = c) := fun he => hc he.symm
                  simp [eventsAt_one, hc', applyEvents, lookupV_setV]
            · rw [if_neg hiu] at h
              by_cases hm : d.multi = true
              · rw [if_pos hm] at h
                simp at h
                subst h
                by_cases hc : canon = c
                · rw [hc] at hiu ⊢
                  simp [eventsAt_one, applyEvents_one, applyEvent, hiu, hm, lookupV_setV]
                · simp [eventsAt_one, hc, applyEvents, lookupV_setV, hiu]
              · rw [if_neg hm] at h
                cases hlk : lookupV st.values canon with
                | some l =>
                  rw [hlk] at h
                  simp at h
                  subst h
                  by_cases hc : canon = c
                  · rw [hc] at hiu hlk ⊢
                    simp [eventsAt_one, applyEvents_one, applyEvent, hiu, hm, hlk]
                  · simp [eventsAt_one, hc, applyEvents]
                | none =>
                  rw [hlk] at h
                  simp at h
                  subst h
                  by_cases hc : canon = c
                  · rw [hc] at hiu hlk ⊢
                    simp [eventsAt_one, applyEvents_one, applyEvent, hiu, hm, hlk, lookupV_setV]
                  · simp [eventsAt_one, hc, applyEvents, lookupV_setV, hiu]

/-- Single-valued events never change an already-set key. -/
theorem applyEvents_keep_some (c : String) :
    ∀ (evs : List AEvent) (l : List String),
      (∀ e ∈ evs, e.multi = false) →
      applyEvents c (some l) evs = some l
  | [], _, _ => rfl
  | e :: rest, l, h => by
    have he : e.multi = false := h e (by simp)
    have hstep : applyEvent c (some l) e = some l := by
      unfold applyEvent
      by_cases hiu : c = "ignoreunknown" <;> simp [hiu, he]
    simp only [applyEvents, List.foldl_cons]
    rw [hstep]
    exact applyEvents_keep_some c rest l (fun x hx => h x (List.mem_cons_of_mem e hx))

/-- A non-empty run of single-valued events starting from an unset key
produces exactly the first event's value: first-wins. -/
theorem applyEvents_single_first (c : String) (evs : List AEvent) (e0 : AEvent)
    (h : ∀ e ∈ (e0 :: evs), e.multi = false) :
    applyEvents c none (e0 :: evs) = some [e0.value] := by
  have hstep : applyEvent c none e0 = some [e0.value] := by
    unfold applyEvent
    by_cases hiu : c = "ignoreunknown" <;> simp [hiu, h e0 (by simp)]
  simp only [applyEvents, List.foldl_cons]
  rw [hstep]
  exact applyEvents_keep_some c evs [e0.value] (fun x hx => h x (List.mem_cons_of_mem e0 hx))

/-- Multi-valued events accumulate in order. -/
theorem applyEvents_multi_all (c : String) (hne : c ≠ "ignoreunknown") :
    ∀ (evs : List AEvent) (cur : Option (List String)),
      (∀ e ∈ evs, e.multi = true) → evs ≠ [] →
      applyEvents c cur evs = some (cur.getD [] ++ evs.map (fun e => e.value))
  | [], _, _, hne2 => absurd rfl hne2
  | e :: rest, cur, h, _ => by
    have he : e.multi = true := h e (by simp)
    have hstep : applyEvent c cur e = some (cur.getD [] ++ [e.value]) := by
      unfold applyEvent
      simp [hne, he]
    simp only [applyEvents, List.foldl_cons]
    rw [hstep]
    cases rest with
    | nil => simp [applyEvents]
    | cons e2 rest2 =>
      have hrec := applyEvents_multi_all c hne (e2 :: rest2)
        (some (cur.getD [] ++ [e.value]))
        (fun x hx => h x (List.mem_cons_of_mem e hx)) (by simp)
      simp only [applyEvents] at hrec
      rw [hrec]
      simp

/-- The defaults loop never alters a key that already has a value. -/
theorem applyDefaultsAux_preserve :
    ∀ (ds : List specDirective) (values : List (String × List String)) (c : String)
      (l : List String), lookupV values c = some l →
      lookupV (applyDefaultsAux ds values) c = some l
  | [], _, _, _, h => h
  | d :: rest, values, c, l, h => by
    simp only [applyDefaultsAux]
    apply applyDefaultsAux_preserve rest
    by_cases h1 : d.name ≠ d.canonical
    · simp [h1, h]
    · by_cases h2 : d.status ≠ "supported"
      · simp [h1, h2, h]
      · cases hk : lookupV values (lowerStr d.name) with
        | some v => simp [h1, h2, hk, h]
        | none =>
          cases hd : defaultValues d with
          | nil => simp [h1, h2, hk, hd, h]
          | cons v vs =>
            have hkc : ¬(lowerStr d.name = c) := by
              intro he
              rw [he] at hk
              rw [h] at hk
              cases hk
            by_cases hm : d.multi = true
            · simp [h1, h2, hk, hd, hm, lookupV_setV, hkc, h]
            · simp [h1, h2, hk, hd, hm, lookupV_setV, hkc, h]

/-- The `hostname`/`user` fill steps never alter a key that already has
a value. -/
theorem lookupV_fill_preserve (values : List (String × List String)) (k : String)
    (w : List String) (p : Prop) [Decidable p] (c : String) (l : List String)
    (h : lookupV values c = some l) :
    lookupV (match lookupV values k with
      | some _ => values
      | none => if p then setV values k w else values) c = some l := by
  cases hk : lookupV values k with
  | some _ => simp [hk, h]
  | none =>
    by_cases hp : p
    · have hkc : ¬(k = c) := by
        intro he
        rw [he] at hk
        rw [h] at hk
        cases hk
      simp [hk, hp, lookupV_setV, hkc, h]
    · simp [hk, hp, h]

/-- `applyDefaults` never alters a key that already has a value. -/
theorem applyDefaults_preserve (state : resolveState) (ctx : Context) (spec : clientSpec)
    (c : String) (l : List String) (h : lookupV state.values c = some l) :
    lookupV (applyDefaults state ctx spec).values c = some l := by
  simp only [applyDefaults]
  exact lookupV_fill_preserve _ "user" [ctx.localUser] _ c l
    (lookupV_fill_preserve _ "hostname" [ctx.hostArg] _ c l
      (applyDefaultsAux_preserve spec.directives state.values c l h))

mutual
/-- Walk fold: the instrumented config walk changes the state at `c`
exactly as the declarative policy applied to the emitted events. -/
theorem resolveConfigT_effect :
    ∀ (cfg : ConfigT) (ctx : Context) (pass : passType) (options : resolveOptions)
      (spec : clientSpec) (env : Env) (st : resolveState) (nm : Bool)
      (st1 : resolveState) (tr : List AEvent),
      resolveConfigT cfg ctx pass options spec env st nm = .ok (st1, tr) →
      ∀ c, lookupV st1.values c = applyEvents c (lookupV st.values c) (eventsAt c tr)
  | .mk blocks hosts, ctx, pass, options, spec, env, st, nm, st1, tr => by
    intro h c
    cases blocks with
    | nil =>
      simp only [resolveConfigT] at h
      exact resolveBlocksT_effect hosts ctx pass options spec env st nm st1 tr h c
    | cons b bs =>
      simp only [resolveConfigT] at h
      exact resolveBlocksT_effect (.cons b bs) ctx pass options spec env st nm st1 tr h c

theorem resolveBlocksT_effect :
    ∀ (blocks : BlockList) (ctx : Context) (pass : passType) (options : resolveOptions)
      (spec : clientSpec) (env : Env) (st : resolveState) (nm : Bool)
      (st1 : resolveState) (tr : List AEvent),
      resolveBlocksT blocks ctx pass options spec env st nm = .ok (st1, tr) →
      ∀ c, lookupV st1.values c = applyEvents c (lookupV st.values c) (eventsAt c tr)
  | .nil, ctx, pass, options, spec, env, st, nm, st1, tr => by
    intro h c
    simp only [resolveBlocksT] at h
    obtain ⟨h1, h2⟩ := by simpa using h
    subst h1
    subst h2
    simp [eventsAt, applyEvents]
  | .cons b rest, ctx, pass, options, spec, env, st, nm, st1, tr => by
    intro h c
    cases b with
    | host patterns nodes eol sbc he ls impl =>
      simp only [resolveBlocksT] at h
      cases hn : resolveNodesT nodes (if nm = true then false
          else hostMatches patterns ctx.hostArg) ctx pass options spec env st nm with
      | error e => rw [hn] at h; cases h
      | ok p1 =>
        obtain ⟨st3, tr3⟩ := p1
        rw [hn] at h
        dsimp only at h
        cases hb : resolveBlocksT rest ctx pass options spec env st3 nm with
        | error e => rw [hb] at h; cases h
        | ok p2 =>
          obtain ⟨st4, tr4⟩ := p2
          rw [hb] at h
          dsimp only at h
          obtain ⟨h1, h2⟩ := by simpa using h
          subst h1
          subst h2
          rw [eventsAt_append, applyEvents_append]
          rw [← resolveNodesT_effect nodes _ ctx pass options spec env st nm st3 tr3 hn c]
          exact resolveBlocksT_effect rest ctx pass options spec env st3 nm st4 tr4 hb c
    | matchB criteria nodes eol sbc he ls =>
      simp only [resolveBlocksT] at h
      cases hma : (if nm = true then Except.ok false
          else matchBlockActive criteria ctx pass options spec st env) with
      | error e => rw [hma] at h; cases h
      | ok active =>
        rw [hma] at h
        dsimp only at h
        cases hn : resolveNodesT nodes active ctx pass options spec env st nm with
        | error e => rw [hn] at h; cases h
        | ok p1 =>
          obtain ⟨st3, tr3⟩ := p1
          rw [hn] at h
          dsimp only at h
          cases hb : resolveBlocksT rest ctx pass options spec env st3 nm with
          | error e => rw [hb] at h; cases h
          | ok p2 =>
            obtain ⟨st4, tr4⟩ := p2
            rw [hb] at h
            dsimp only at h
            obtain ⟨h1, h2⟩ := by simpa using h
            subst h1
            subst h2
            rw [eventsAt_append, applyEvents_append]
            rw [← resolveNodesT_effect nodes active ctx pass options spec env st nm st3 tr3 hn c]
            exact resolveBlocksT_effect rest ctx pass options spec env st3 nm st4 tr4 hb c

theorem resolveNodesT_effect :
    ∀ (nodes : NodeList) (active : Bool) (ctx : Context) (pass : passType)
      (options : resolveOptions) (spec : clientSpec) (env : Env) (st : resolveState)
      (nm : Bool) (st1 : resolveState) (tr : List AEvent),
      resolveNodesT nodes active ctx pass options spec env st nm = .ok (st1, tr) →
      ∀ c, lookupV st1.values c = applyEvents c (lookupV st.values c) (eventsAt c tr)
  | .nil, active, ctx, pass, options, spec, env, st, nm, st1, tr => by
    intro h c
    simp only [resolveNodesT] at h
    obtain ⟨h1, h2⟩ := by simpa using h
    subst h1
    subst h2
    simp [eventsAt, applyEvents]
  | .cons n rest, active, ctx, pass, options, spec, env, st, nm, st1, tr => by
    intro h c
    cases n with
    | empty comment ls =>
      simp only [resolveNodesT] at h
      exact resolveNodesT_effect rest active ctx pass options spec env st nm st1 tr h c
    | kv k =>
      simp only [resolveNodesT] at h
      cases ha : applyDirective k.key k.value active options spec st with
      | error e => rw [ha] at h; cases h
      | ok stA =>
        rw [ha] at h
        dsimp only at h
        cases hr : resolveNodesT rest active ctx pass options spec env stA nm with
        | error e => rw [hr] at h; cases h
        | ok p2 =>
          obtain ⟨st4, tr4⟩ := p2
          rw [hr] at h
          dsimp only at h
          obtain ⟨h1, h2⟩ := by simpa using h
          subst h1
          subst h2
          rw [eventsAt_append, applyEvents_append]
          rw [← applyDirective_effect k.key k.value active options spec st stA ha c]
          exact resolveNodesT_effect rest active ctx pass options spec env stA nm st4 tr4 hr c
    | inc dirs comment ls he subs =>
      simp only [resolveNodesT] at h
      cases hs : resolveSubsT subs ctx pass options spec env st (nm || !active) with
      | error e => rw [hs] at h; cases h
      | ok p1 =>
        obtain ⟨st3, tr3⟩ := p1
        rw [hs] at h
        dsimp only at h
        cases hr : resolveNodesT rest active ctx pass options spec env st3 nm with
        | error e => rw [hr] at h; cases h
        | ok p2 =>
          obtain ⟨st4, tr4⟩ := p2
          rw [hr] at h
          dsimp only at h
          obtain ⟨h1, h2⟩ := by simpa using h
          subst h1
          subst h2
          rw [eventsAt_append, applyEvents_append]
          rw [← resolveSubsT_effect subs ctx pass options spec env st (nm || !active) st3 tr3 hs c]
          exact resolveNodesT_effect rest active ctx pass options spec env st3 nm st4 tr4 hr c

theorem resolveSubsT_effect :
    ∀ (subs : ConfigList) (ctx : Context) (pass : passType) (options : resolveOptions)
      (spec : clientSpec) (env : Env) (st : resolveState) (nm : Bool)
      (st1 : resolveState) (tr : List AEvent),
      resolveSubsT subs ctx pass options spec env st nm = .ok (st1, tr) →
      ∀ c, lookupV st1.values c = applyEvents c (lookupV st.values c) (eventsAt c tr)
  | .nil, ctx, pass, options, spec, env, st, nm, st1, tr => by
    intro h c
    simp only [resolveSubsT] at h
    obtain ⟨h1, h2⟩ := by simpa using h
    subst h1
    subst h2
    simp [eventsAt, applyEvents]
  | .cons cfg rest, ctx, pass, options, spec, env, st, nm, st1, tr => by
    intro h c
    simp only [resolveSubsT] at h
    cases hc1 : resolveConfigT cfg ctx pass options spec env st nm with
    | error e => rw [hc1] at h; cases h
    | ok p1 =>
      obtain ⟨st3, tr3⟩ := p1
      rw [hc1] at h
      dsimp only at h
      cases hr : resolveSubsT rest ctx pass options spec env st3 nm with
      | error e => rw [hr] at h; cases h
      | ok p2 =>
        obtain ⟨st4, tr4⟩ := p2
        rw [hr] at h
        dsimp only at h
        obtain ⟨h1, h2⟩ := by simpa using h
        subst h1
        subst h2
        rw [eventsAt_append, applyEvents_append]
        rw [← resolveConfigT_effect cfg ctx pass options spec env st nm st3 tr3 hc1 c]
        exact resolveSubsT_effect rest ctx pass options spec env st3 nm st4 tr4 hr c
end

theorem resolveConfigsT_effect :
    ∀ (configs : List ConfigT) (ctx : Context) (pass : passType)
      (options : resolveOptions) (spec : clientSpec) (env : Env) (st : resolveState)
      (st1 : resolveState) (tr : List AEvent),
      resolveConfigsT configs ctx pass options spec env st = .ok (st1, tr) →
      ∀ c, lookupV st1.values c = applyEvents c (lookupV st.values c) (eventsAt c tr)
  | [], ctx, pass, options, spec, env, st, st1, tr => by
    intro h c
    simp only [resolveConfigsT] at h
    obtain ⟨h1, h2⟩ := by simpa using h
    subst h1
    subst h2
    simp [eventsAt, applyEvents]
  | cfg :: rest, ctx, pass, options, spec, env, st, st1, tr => by
    intro h c
    simp only [resolveConfigsT] at h
    cases hc1 : resolveConfigT cfg ctx pass options spec env st false with
    | error e => rw [hc1] at h; cases h
    | ok p1 =>
      obtain ⟨st3, tr3⟩ := p1
      rw [hc1] at h
      dsimp only at h
      cases hr : resolveConfigsT rest ctx pass options spec env st3 with
      | error e => rw [hr] at h; cases h
      | ok p2 =>
        obtain ⟨st4, tr4⟩ := p2
        rw [hr] at h
        dsimp only at h
        obtain ⟨h1, h2⟩ := by simpa using h
        subst h1
        subst h2
        rw [eventsAt_append, applyEvents_append]
        rw [← resolveConfigT_effect cfg ctx pass options spec env st false st3 tr3 hc1 c]
        exact resolveConfigsT_effect rest ctx pass options spec env st3 st4 tr4 hr c

mutual
/-- Agreement: the source walk is the first projection of the
instrumented walk. -/
theorem resolveConfigT_fst :
    ∀ (cfg : ConfigT) (ctx : Context) (pass : passType) (options : resolveOptions)
      (spec : clientSpec) (env : Env) (st : resolveState) (nm : Bool),
      resolveConfigE cfg ctx pass options spec env st nm =
        (resolveConfigT cfg ctx pass options spec env st nm).map (fun p => p.1)
  | .mk blocks hosts, ctx, pass, options, spec, env, st, nm => by
    cases blocks with
    | nil =>
      simp only [resolveConfigE, resolveConfigT]
      exact resolveBlocksT_fst hosts ctx pass options spec env st nm
    | cons b bs =>
      simp only [resolveConfigE, resolveConfigT]
      exact resolveBlocksT_fst (.cons b bs) ctx pass options spec env st nm

theorem resolveBlocksT_fst :
    ∀ (blocks : BlockList) (ctx : Context) (pass : passType) (options : resolveOptions)
      (spec : clientSpec) (env : Env) (st : resolveState) (nm : Bool),
      resolveBlocksE blocks ctx pass options spec env st nm =
        (resolveBlocksT blocks ctx pass options spec env st nm).map (fun p => p.1)
  | .nil, ctx, pass, options, spec, env, st, nm => by
    simp [resolveBlocksE, resolveBlocksT, Except.map]
  | .cons b rest, ctx, pass, options, spec, env, st, nm => by
    cases b with
    | host patterns nodes eol sbc he ls impl =>
      simp only [resolveBlocksE, resolveBlocksT]
      rw [resolveNodesT_fst nodes _ ctx pass options spec env st nm]
      cases hn : resolveNodesT nodes (if nm = true then false
          else hostMatches patterns ctx.hostArg) ctx pass options spec env st nm with
      | error e => simp [Except.map]
      | ok p1 =>
        obtain ⟨st3, tr3⟩ := p1
        dsimp only [Except.map]
        rw [resolveBlocksT_fst rest ctx pass options spec env st3 nm]
        cases hb : resolveBlocksT rest ctx pass options spec env st3 nm with
        | error e => simp [Except.map]
        | ok p2 => obtain ⟨st4, tr4⟩ := p2; simp [Except.map]
    | matchB criteria nodes eol sbc he ls =>
      simp only [resolveBlocksE, resolveBlocksT]
      cases hma : (if nm = true then Except.ok false
          else matchBlockActive criteria ctx pass options spec st env) with
      | error e => simp [Except.map]
      | ok active =>
        dsimp only
        rw [resolveNodesT_fst nodes active ctx pass options spec env st nm]
        cases hn : resolveNodesT nodes active ctx pass options spec env st nm with
        | error e => simp [Except.map]
        | ok p1 =>
          obtain ⟨st3, tr3⟩ := p1
          dsimp only [Except.map]
          rw [resolveBlocksT_fst rest ctx pass options spec env st3 nm]
          cases hb : resolveBlocksT rest ctx pass options spec env st3 nm with
          | error e => simp [Except.map]
          | ok p2 => obtain ⟨st4, tr4⟩ := p2; simp [Except.map]

theorem resolveNodesT_fst :
    ∀ (nodes : NodeList) (active : Bool) (ctx : Context) (pass : passType)
      (options : resolveOptions) (spec : clientSpec) (env : Env) (st : resolveState)
      (nm : Bool),
      resolveNodesE nodes active ctx pass options spec env st nm =
        (resolveNodesT nodes active ctx pass options spec env st nm).map (fun p => p.1)
  | .nil, active, ctx, pass, options, spec, env, st, nm => by
    simp [resolveNodesE, resolveNodesT, Except.map]
  | .cons n rest, active, ctx, pass, options, spec, env, st, nm => by
    cases n with
    | empty comment ls =>
      simp only [resolveNodesE, resolveNodesT]
      exact resolveNodesT_fst rest active ctx pass options spec env st nm
    | kv k =>
      simp only [resolveNodesE, resolveNodesT]
      cases ha : applyDirective k.key k.value active options spec st with
      | error e => simp [Except.map]
      | ok stA =>
        dsimp only
        rw [resolveNodesT_fst rest active ctx pass options spec env stA nm]
        cases hr : resolveNodesT rest active ctx pass options spec env stA nm with
        | error e => simp [Except.map]
        | ok p2 => obtain ⟨st4, tr4⟩ := p2; simp [Except.map]
    | inc dirs comment ls he subs =>
      simp only [resolveNodesE, resolveNodesT]
      rw [resolveSubsT_fst subs ctx pass options spec env st (nm || !active)]
      cases hs : resolveSubsT subs ctx pass options spec env st (nm || !active) with
      | error e => simp [Except.map]
      | ok p1 =>
        obtain ⟨st3, tr3⟩ := p1
        dsimp only [Except.map]
        rw [resolveNodesT_fst rest active ctx pass options spec env st3 nm]
        cases hr : resolveNodesT rest active ctx pass options spec env st3 nm with
        | error e => simp [Except.map]
        | ok p2 => obtain ⟨st4, tr4⟩ := p2; simp [Except.map]

theorem resolveSubsT_fst :
    ∀ (subs : ConfigList) (ctx : Context) (pass : passType) (options : resolveOptions)
      (spec : clientSpec) (env : Env) (st : resolveState) (nm : Bool),
      resolveSubsE subs ctx pass options spec env st nm =
        (resolveSubsT subs ctx pass options spec env st nm).map (fun p => p.1)
  | .nil, ctx, pass, options, spec, env, st, nm => by
    simp [resolveSubsE, resolveSubsT, Except.map]
  | .cons cfg rest, ctx, pass, options, spec, env, st, nm => by
    simp only [resolveSubsE, resolveSubsT]
    rw [resolveConfigT_fst cfg ctx pass options spec env st nm]
    cases hc1 : resolveConfigT cfg ctx pass options spec env st nm with
    | error e => simp [Except.map]
    | ok p1 =>
      obtain ⟨st3, tr3⟩ := p1
      dsimp only [Except.map]
      rw [resolveSubsT_fst rest ctx pass options spec env st3 nm]
      cases hr : resolveSubsT rest ctx pass options spec env st3 nm with
      | error e => simp [Except.map]
      | ok p2 => obtain ⟨st4, tr4⟩ := p2; simp [Except.map]
end

theorem resolveConfigsT_fst :
    ∀ (configs : List ConfigT) (ctx : Context) (pass : passType)
      (options : resolveOptions) (spec : clientSpec) (env : Env) (st : resolveState),
      resolveConfigsE configs ctx pass options spec env st =
        (resolveConfigsT configs ctx pass options spec env st).map (fun p => p.1)
  | [], ctx, pass, options, spec, env, st => by
    simp [resolveConfigsE, resolveConfigsT, Except.map]
  | cfg :: rest, ctx, pass, options, spec, env, st => by
    simp only [resolveConfigsE, resolveConfigsT]
    rw [resolveConfigT_fst cfg ctx pass options spec env st false]
    cases hc1 : resolveConfigT cfg ctx pass options spec env st false with
    | error e => simp [Except.map]
    | ok p1 =>
      obtain ⟨st3, tr3⟩ := p1
      dsimp only [Except.map]
      rw [resolveConfigsT_fst rest ctx pass options spec env st3]
      cases hr : resolveConfigsT rest ctx pass options spec env st3 with
      | error e => simp [Except.map]
      | ok p2 => obtain ⟨st4, tr4⟩ := p2; simp [Except.map]

/-- Pass-level agreement: a successful instrumented pass projects to
the source pass. -/
theorem resolvePassT_fst (configs : List ConfigT) (ctx : Context) (pass : passType)
    (options : resolveOptions) (spec : clientSpec) (env : Env) (res : Result)
    (tr : List AEvent)
    (h : resolvePassT configs ctx pass options spec env = .ok (res, tr)) :
    resolvePassE configs ctx pass options spec env = .ok res := by
  unfold resolvePassT at h
  unfold resolvePassE
  rw [resolveConfigsT_fst]
  cases hc : resolveConfigsT configs ctx pass options spec env
      { values := [], ignoreUnknown := "" } with
  | error e => rw [hc] at h; cases h
  | ok p =>
    obtain ⟨st0, tr0⟩ := p
    rw [hc] at h
    dsimp only at h
    obtain ⟨h1, h2⟩ := by simpa using h
    dsimp only [Except.map]
    rw [h1]

/-- C1: over a whole pass (any sequence of documents, includes and all),
the value recorded for a canonical key written only by single-valued
(`multi = false`) spec entries is the raw value of the *first* KV node,
in walk order, that lies in an active block and resolves to that key —
later assignments leave it unchanged; a key written only by
multi-valued (`multi = true`) entries accumulates the raw values of
*all* such KV nodes in walk order.  The walk-order events are those of
the instrumented walk, whose first projection is the source resolver
(`resolvePassE`, first conjunct). -/
theorem resolve_first_wins_and_accumulates
    (configs : List ConfigT) (ctx : Context) (pass : passType)
    (options : resolveOptions) (spec : clientSpec) (env : Env)
    (res : Result) (tr : List AEvent) (c : String)
    (h : resolvePassT configs ctx pass options spec env = .ok (res, tr))
    (hlc : lowerStr c = c) :
    resolvePassE configs ctx pass options spec env = .ok res
    ∧ ((∀ e ∈ tr, e.key = c → e.multi = false) →
        ∀ (ev : AEvent) (restEv : List AEvent), eventsAt c tr = ev :: restEv →
        Result.Get (some res) c = ev.value)
    ∧ ((∀ e ∈ tr, e.key = c → e.multi = true) → c ≠ "ignoreunknown" →
        eventsAt c tr ≠ [] →
        Result.GetAll (some res) c = (eventsAt c tr).map (fun e => e.value)) := by
  have hpass := resolvePassT_fst configs ctx pass options spec env res tr h
  unfold resolvePassT at h
  cases hc0 : resolveConfigsT configs ctx pass options spec env
      { values := [], ignoreUnknown := "" } with
  | error e => rw [hc0] at h; cases h
  | ok p =>
    obtain ⟨st0, tr0⟩ := p
    rw [hc0] at h
    dsimp only at h
    obtain ⟨h1, h2⟩ := by simpa using h
    subst h2
    have hfold := resolveConfigsT_effect configs ctx pass options spec env
      { values := [], ignoreUnknown := "" } st0 tr0 hc0 c
    simp only [lookupV] at hfold
    refine ⟨hpass, ?_, ?_⟩
    · intro hall ev restEv hev
      have hmem : ∀ e ∈ eventsAt c tr0, e.multi = false := by
        intro e he
        have hm := List.mem_filter.mp he
        exact hall e hm.1 (by simpa using hm.2)
      rw [hev] at hfold
      rw [applyEvents_single_first c restEv ev (hev ▸ hmem)] at hfold
      have hres : lookupV res.values c = some [ev.value] := by
        rw [← h1]
        exact applyDefaults_preserve st0 ctx spec c [ev.value] hfold
      simp [Result.Get, Result.GetAll, hlc, hres]
    · intro hall hiu hne
      have hmem : ∀ e ∈ eventsAt c tr0, e.multi = true := by
        intro e he
        have hm := List.mem_filter.mp he
        exact hall e hm.1 (by simpa using hm.2)
      rw [applyEvents_multi_all c hiu (eventsAt c tr0) none hmem hne] at hfold
      have hres : lookupV res.values c =
          some ((eventsAt c tr0).map (fun e => e.value)) := by
        rw [← h1]
        exact applyDefaults_preserve st0 ctx spec c _ (by simpa using hfold)
      have hnil : (eventsAt c tr0).map (fun e => e.value) ≠ [] := by
        intro hmap
        exact hne (List.map_eq_nil_iff.mp hmap)
      simp [Result.GetAll, hlc, hres, hnil]

theorem resolve_first_wins_and_accumulates_witness :
    Result.Get (some resTwoHosts) "port" = "2222"
    ∧ Result.GetAll (some resTwoHosts) "identityfile" = ["f1", "f2"] := by
  constructor
  · exact (resolve_first_wins_and_accumulates [cfgTwoHosts] ctxPlain .passInitial optsLoose
      specBasic envPlain resTwoHosts trTwoHosts "port" (by decide) (by decide)).2.1
      (by decide) { key := "port", value := "2222", multi := false }
      [{ key := "port", value := "2200", multi := false }] (by decide)
  · exact (resolve_first_wins_and_accumulates [cfgTwoHosts] ctxPlain .passInitial optsLoose
      specBasic envPlain resTwoHosts trTwoHosts "identityfile" (by decide) (by decide)).2.2
      (by decide) (by decide) (by decide)

end SshConfig
